import Mathlib

/-
Verification of the fizz HPKE context core and its cipher-suite factory layer.

Sources embedded:
  - fizz/protocol/MultiBackendFactory.cpp : suite factory dispatch (embedded
    directly from the source switch statements).
  - fizz/crypto/test/HpkeContextTest.cpp : the HPKE context tests; the
    HpkeContext, Hkdf, AEAD and hash implementations they exercise are not part
    of the provided sources, so those are modelled from the specification
    (HPKE draft-05 labeled HKDF, RFC 5869, SP 800-38D GCM, RFC 8439
    ChaCha20-Poly1305, RFC 7253 OCB, FIPS 197 AES, FIPS 180-4 SHA-256).

Bytes are modelled as `List Nat` with each element below 256.
-/

set_option maxRecDepth 100000

namespace Fizz

/-! ## Byte strings -/

/-- Byte strings are lists of naturals; well-formed bytes are below 256. -/
abbrev Bytes := List Nat

/-- Every element of the byte string is an actual byte value (below 256). -/
def bytesOk (bs : Bytes) : Prop := ∀ b ∈ bs, b < 256

instance (bs : Bytes) : Decidable (bytesOk bs) := by
  unfold bytesOk; infer_instance

/-- Value of one hexadecimal digit character. -/
def hexVal (c : Char) : Nat :=
  if 48 ≤ c.toNat ∧ c.toNat ≤ 57 then c.toNat - 48
  else if 97 ≤ c.toNat ∧ c.toNat ≤ 102 then c.toNat - 87
  else if 65 ≤ c.toNat ∧ c.toNat ≤ 70 then c.toNat - 55
  else 0

/-- Decode a list of hex digit characters, two per byte. -/
def hexPairs : List Char → Bytes
  | h :: l :: rest => (16 * hexVal h + hexVal l) :: hexPairs rest
  | _ => []

/-- Decode a hex string into bytes, as `toIOBuf` does in the test harness. -/
def hexBytes (s : String) : Bytes := hexPairs s.toList

/-- ASCII bytes of a label string. -/
def asciiBytes (s : String) : Bytes := s.toList.map Char.toNat

/-- Pointwise XOR of two byte strings (truncating to the shorter). -/
def xorBytes (a b : Bytes) : Bytes := List.zipWith Nat.xor a b

/-- Big-endian encoding of `v` into exactly `n` bytes (`I2OSP(v, n)`). -/
def beBytes (n : Nat) (v : Nat) : Bytes :=
  match n with
  | 0 => []
  | m + 1 => beBytes m (v / 256) ++ [v % 256]

/-- Big-endian decoding of a byte string back to a natural number. -/
def beVal (bs : Bytes) : Nat := bs.foldl (fun acc b => 256 * acc + b) 0

/-! ## Protocol enums

The enum cases are the ones named in the `MultiBackendFactory.cpp` switch
statements together with the TLS code points the spec assigns them. -/

inductive CipherSuite where
  | TLS_AES_128_GCM_SHA256
  | TLS_AES_256_GCM_SHA384
  | TLS_CHACHA20_POLY1305_SHA256
  | TLS_AES_128_OCB_SHA256_EXPERIMENTAL
  | TLS_AEGIS_256_SHA512
  | TLS_AEGIS_128L_SHA256
  deriving DecidableEq, Repr

inductive NamedGroup where
  | secp256r1
  | secp384r1
  | secp521r1
  | x25519
  | x25519_kyber512
  | x25519_kyber512_experimental
  | secp256r1_kyber512
  | kyber512
  | x25519_kyber768_draft00
  | x25519_kyber768_experimental
  | secp256r1_kyber768_draft00
  | secp384r1_kyber768
  deriving DecidableEq, Repr

inductive KeyExchangeMode where
  | Server
  | Client
  deriving DecidableEq, Repr

inductive HashFunction where
  | Sha256
  | Sha384
  | Sha512
  deriving DecidableEq, Repr

/-- Digest length in bytes of each hash function. -/
def HashFunction.len : HashFunction → Nat
  | .Sha256 => 32
  | .Sha384 => 48
  | .Sha512 => 64

/-! ## MultiBackendFactory (embedded from fizz/protocol/MultiBackendFactory.cpp)

The factory methods throw `std::runtime_error` with a "not implemented"
message for unsupported enum values; that is modelled with `Except`.  The
compile-time feature gates `FIZZ_HAVE_OQS` and `FIZZ_BUILD_AEGIS` are
modelled as boolean parameters. -/

/-- Factory failure: the `std::runtime_error("...: not implemented")` throws. -/
inductive FactoryError where
  | notImplemented (msg : String)
  deriving DecidableEq, Repr

/-- Concrete AEAD implementation chosen by `MultiBackendFactory::makeAead`. -/
inductive AeadChoice where
  | chacha20Poly1305
  | aesGcm128
  | aesGcm256
  | aesOcb128
  | aegis256
  | aegis128L
  deriving DecidableEq, Repr

/-- Concrete key-exchange chosen by `MultiBackendFactory::makeKeyExchange`. -/
inductive KexChoice where
  | p256
  | p384
  | p521
  | x25519
  | hybridX25519Kyber512
  | hybridP256Kyber512
  | oqsKyber512
  | hybridX25519Kyber768
  | hybridP256Kyber768
  | hybridP384Kyber768
  deriving DecidableEq, Repr

/-- The key deriver returned by the factory, identified by the hash it holds
(`KeyDerivationImpl` is fully determined by its `Hash` template argument). -/
structure KeyDerivation where
  hash : HashFunction
  deriving DecidableEq, Repr

/-- The transcript-hash (handshake-context) instance returned by the factory,
identified by the hash it is templated on (`HandshakeContextImpl<Hash>`). -/
structure HandshakeContextChoice where
  hash : HashFunction
  deriving DecidableEq, Repr

/-- `MultiBackendFactory::makeKeyExchange`, with `FIZZ_HAVE_OQS` as `haveOqs`.
The `mode` argument is only passed through to the OQS constructor. -/
def makeKeyExchange (haveOqs : Bool) (group : NamedGroup) (_mode : KeyExchangeMode) :
    Except FactoryError KexChoice :=
  match group with
  | .secp256r1 => .ok .p256
  | .secp384r1 => .ok .p384
  | .secp521r1 => .ok .p521
  | .x25519 => .ok .x25519
  | .x25519_kyber512 =>
      if haveOqs then .ok .hybridX25519Kyber512
      else .error (.notImplemented "ke: not implemented")
  | .x25519_kyber512_experimental =>
      if haveOqs then .ok .hybridX25519Kyber512
      else .error (.notImplemented "ke: not implemented")
  | .secp256r1_kyber512 =>
      if haveOqs then .ok .hybridP256Kyber512
      else .error (.notImplemented "ke: not implemented")
  | .kyber512 =>
      if haveOqs then .ok .oqsKyber512
      else .error (.notImplemented "ke: not implemented")
  | .x25519_kyber768_draft00 =>
      if haveOqs then .ok .hybridX25519Kyber768
      else .error (.notImplemented "ke: not implemented")
  | .x25519_kyber768_experimental =>
      if haveOqs then .ok .hybridX25519Kyber768
      else .error (.notImplemented "ke: not implemented")
  | .secp256r1_kyber768_draft00 =>
      if haveOqs then .ok .hybridP256Kyber768
      else .error (.notImplemented "ke: not implemented")
  | .secp384r1_kyber768 =>
      if haveOqs then .ok .hybridP384Kyber768
      else .error (.notImplemented "ke: not implemented")

/-- `MultiBackendFactory::makeAead`, with `FIZZ_BUILD_AEGIS` as `buildAegis`. -/
def makeAead (buildAegis : Bool) (cipher : CipherSuite) :
    Except FactoryError AeadChoice :=
  match cipher with
  | .TLS_CHACHA20_POLY1305_SHA256 => .ok .chacha20Poly1305
  | .TLS_AES_128_GCM_SHA256 => .ok .aesGcm128
  | .TLS_AES_256_GCM_SHA384 => .ok .aesGcm256
  | .TLS_AES_128_OCB_SHA256_EXPERIMENTAL => .ok .aesOcb128
  | .TLS_AEGIS_256_SHA512 =>
      if buildAegis then .ok .aegis256
      else .error (.notImplemented "aead: not implemented")
  | .TLS_AEGIS_128L_SHA256 =>
      if buildAegis then .ok .aegis128L
      else .error (.notImplemented "aead: not implemented")

/-- `MultiBackendFactory::makeKeyDeriver`: the switch maps each suite to
`detail::makeKeyDerivationPtr<Hash>` (no feature gate on this method). -/
def makeKeyDeriver (cipher : CipherSuite) : Except FactoryError KeyDerivation :=
  match cipher with
  | .TLS_CHACHA20_POLY1305_SHA256 => .ok ⟨.Sha256⟩
  | .TLS_AES_128_GCM_SHA256 => .ok ⟨.Sha256⟩
  | .TLS_AES_128_OCB_SHA256_EXPERIMENTAL => .ok ⟨.Sha256⟩
  | .TLS_AEGIS_128L_SHA256 => .ok ⟨.Sha256⟩
  | .TLS_AES_256_GCM_SHA384 => .ok ⟨.Sha384⟩
  | .TLS_AEGIS_256_SHA512 => .ok ⟨.Sha512⟩

/-- `MultiBackendFactory::makeHandshakeContext`: the switch maps each suite to
`HandshakeContextImpl<Hash>` (no feature gate on this method).  Note the
source groups `TLS_AEGIS_256_SHA512` with the `Sha384` cases. -/
def makeHandshakeContext (cipher : CipherSuite) :
    Except FactoryError HandshakeContextChoice :=
  match cipher with
  | .TLS_CHACHA20_POLY1305_SHA256 => .ok ⟨.Sha256⟩
  | .TLS_AES_128_GCM_SHA256 => .ok ⟨.Sha256⟩
  | .TLS_AES_128_OCB_SHA256_EXPERIMENTAL => .ok ⟨.Sha256⟩
  | .TLS_AEGIS_128L_SHA256 => .ok ⟨.Sha256⟩
  | .TLS_AES_256_GCM_SHA384 => .ok ⟨.Sha384⟩
  | .TLS_AEGIS_256_SHA512 => .ok ⟨.Sha384⟩

/-- The hash function named in each suite's TLS name. -/
def suiteNamedHash : CipherSuite → HashFunction
  | .TLS_CHACHA20_POLY1305_SHA256 => .Sha256
  | .TLS_AES_128_GCM_SHA256 => .Sha256
  | .TLS_AES_128_OCB_SHA256_EXPERIMENTAL => .Sha256
  | .TLS_AEGIS_128L_SHA256 => .Sha256
  | .TLS_AES_256_GCM_SHA384 => .Sha384
  | .TLS_AEGIS_256_SHA512 => .Sha512

/-! ## SHA-256

Modelled from the spec: the `Sha256` hash primitive (consumed by the HKDF used
in `HpkeContextTest.cpp`) is not among the provided sources; it is modelled
from FIPS 180-4, which the spec designates via "SHA-2 ... provided by an
underlying crypto backend". -/

/-- 32-bit truncating addition. -/
def add32 (x y : Nat) : Nat := (x + y) % 4294967296

/-- 32-bit right rotation (input assumed below `2^32`). -/
def rotr32 (n x : Nat) : Nat := ((x >>> n) ||| (x <<< (32 - n))) % 4294967296

/-- Iterate a function `n` times. -/
def iterN (f : α → α) : Nat → α → α
  | 0, a => a
  | n + 1, a => iterN f n (f a)

/-- Fuel-bounded chunk splitter (structural recursion; `fuel` bounds the
number of chunks produced). -/
def chunkFuel (n : Nat) : Nat → List α → List (List α)
  | 0, _ => []
  | _, [] => []
  | f + 1, x :: xs => ((x :: xs).take n) :: chunkFuel n f ((x :: xs).drop n)

/-- Split a list into chunks of `n` elements (last chunk may be short). -/
def chunkList (n : Nat) (l : List α) : List (List α) := chunkFuel n l.length l

/-- Big-endian 32-bit words from bytes. -/
def wordsBE : Bytes → List Nat
  | a :: b :: c :: d :: rest => (((a * 256 + b) * 256 + c) * 256 + d) :: wordsBE rest
  | _ => []

/-- The 64 SHA-256 round constants (FIPS 180-4 §4.2.2), packed big-endian into
one 2048-bit integer; word `i` sits at bit offset `32 * (63 - i)`. -/
def sha256KTab : Nat :=
  8399870144517823301722239222130927227141849779511242471197906795369846673996008864786532278482947930035050432913372875699354429524650716672308175015812472005008943341011247634627600705591103756174659437448007297240981034636327441933849465611186184660803773840414514428031635770391245199770927811112653141372483794982516161135727373084047811483050876080270389320947077305721183235613169389468744126235534648516788175255292025668825020963291224099932572215580391753777671218957634024159536228058522778003881673030597872562207069818177476920296259993961459554031943090626293016819766823808480230688357231269177224952050

/-- SHA-256 round constants. -/
def sha256K : List Nat :=
  (List.range 64).map fun i => (sha256KTab >>> (32 * (63 - i))) % 4294967296

/-- One step of the SHA-256 message-schedule extension: append word `i` from
words `i-2`, `i-7`, `i-15`, `i-16`. -/
def sha256ExtendStep (w : List Nat) : List Nat :=
  let n := w.length
  let w15 := w.getD (n - 15) 0
  let w2 := w.getD (n - 2) 0
  let s0 := (rotr32 7 w15) ^^^ (rotr32 18 w15) ^^^ (w15 >>> 3)
  let s1 := (rotr32 17 w2) ^^^ (rotr32 19 w2) ^^^ (w2 >>> 10)
  w ++ [add32 (add32 (w.getD (n - 16) 0) s0) (add32 (w.getD (n - 7) 0) s1)]

/-- Extend the 16 schedule words to 64. -/
def sha256Extend (w : List Nat) : List Nat :=
  iterN sha256ExtendStep 48 w

/-- Working state of the SHA-256 compression function. -/
structure Sha2State where
  a : Nat
  b : Nat
  c : Nat
  d : Nat
  e : Nat
  f : Nat
  g : Nat
  h : Nat
  deriving Repr, DecidableEq

/-- One SHA-256 compression round for round constant and schedule word `kw`. -/
def sha256Round (st : Sha2State) (kw : Nat × Nat) : Sha2State :=
  let S1 := (rotr32 6 st.e) ^^^ (rotr32 11 st.e) ^^^ (rotr32 25 st.e)
  let ch := (st.e &&& st.f) ^^^ ((st.e ^^^ 4294967295) &&& st.g)
  let temp1 := add32 (add32 (add32 st.h S1) (add32 ch kw.1)) kw.2
  let S0 := (rotr32 2 st.a) ^^^ (rotr32 13 st.a) ^^^ (rotr32 22 st.a)
  let maj := (st.a &&& st.b) ^^^ (st.a &&& st.c) ^^^ (st.b &&& st.c)
  let temp2 := add32 S0 maj
  ⟨add32 temp1 temp2, st.a, st.b, st.c, add32 st.d temp1, st.e, st.f, st.g⟩

/-- Compress one 64-byte chunk into the running hash (8 words). -/
def sha256Compress (hs : List Nat) (chunk : Bytes) : List Nat :=
  let ws := sha256Extend (wordsBE chunk)
  let st0 : Sha2State :=
    ⟨hs.getD 0 0, hs.getD 1 0, hs.getD 2 0, hs.getD 3 0,
     hs.getD 4 0, hs.getD 5 0, hs.getD 6 0, hs.getD 7 0⟩
  let st := (List.zip sha256K ws).foldl sha256Round st0
  [add32 (hs.getD 0 0) st.a, add32 (hs.getD 1 0) st.b,
   add32 (hs.getD 2 0) st.c, add32 (hs.getD 3 0) st.d,
   add32 (hs.getD 4 0) st.e, add32 (hs.getD 5 0) st.f,
   add32 (hs.getD 6 0) st.g, add32 (hs.getD 7 0) st.h]

/-- SHA-256 padding: `0x80`, zeros, then the 64-bit big-endian bit length. -/
def sha256Pad (msg : Bytes) : Bytes :=
  msg ++ 128 :: List.replicate ((55 + 64 - msg.length % 64) % 64) 0
      ++ beBytes 8 (8 * msg.length)

/-- SHA-256 of a byte string. -/
def sha256 (msg : Bytes) : Bytes :=
  let hs := (chunkList 64 (sha256Pad msg)).foldl sha256Compress
    [0x6a09e667, 0xbb67ae85, 0x3c6ef372, 0xa54ff53a,
     0x510e527f, 0x9b05688c, 0x1f83d9ab, 0x5be0cd19]
  hs.flatMap (beBytes 4)

/-! ## HMAC-SHA256 and HKDF (RFC 2104 / RFC 5869)

Modelled from the spec: `HkdfImpl::create<Sha256>()` used by the test is not
among the provided sources; `expand` follows RFC 5869 as §4.2 of the spec
prescribes. -/

/-- HMAC-SHA256 (RFC 2104; block size 64 bytes). -/
def hmacSha256 (key msg : Bytes) : Bytes :=
  let k0 := if key.length > 64 then sha256 key else key
  let kp := k0 ++ List.replicate (64 - k0.length) 0
  let ipad := kp.map (fun b => b ^^^ 0x36)
  let opad := kp.map (fun b => b ^^^ 0x5c)
  sha256 (opad ++ sha256 (ipad ++ msg))

/-- Blocks `T_1 .. T_count` of HKDF-Expand-SHA256, concatenated.  `prev` is
the previous block (`T_(i-1)`), `i` the index of the next block. -/
def hkdfExpandBlocks (prk info : Bytes) (prev : Bytes) (i : Nat) : Nat → Bytes
  | 0 => []
  | count + 1 =>
    let t := hmacSha256 prk (prev ++ info ++ [i % 256])
    t ++ hkdfExpandBlocks prk info t (i + 1) count

/-- HKDF-Expand with SHA-256 (RFC 5869): `L` bytes of output keying material.
The `L > 255 * hashLen` bound is enforced by the caller (`exportSecret`). -/
def hkdfExpandSha256 (prk info : Bytes) (L : Nat) : Bytes :=
  (hkdfExpandBlocks prk info [] 1 ((L + 31) / 32)).take L

/-! ## AES block cipher (FIPS 197)

Modelled from the spec: the `AESGCM128` / `AESGCM256` / `AESOCB128` ciphers
used by `getCipher` in the test are not among the provided sources; the block
cipher is modelled from FIPS 197.  The S-box is computed from its definition
(multiplicative inverse in GF(2^8) followed by the affine map) rather than
transcribed as a table. -/

/-- Multiplication by `x` in GF(2^8) modulo `x^8 + x^4 + x^3 + x + 1` (for
byte values the branch-free `0x1b * (b >>> 7)` is the conditional reduction). -/
def xtime (b : Nat) : Nat := ((2 * b) ^^^ (0x1b * (b >>> 7))) % 256

/-- The AES S-box packed as one natural number, table byte `i` in bits
`8i .. 8i+7` (FIPS 197 figure 7; the seal conformance theorems check this
table against the externally generated GCM/OCB ciphertexts). -/
def sboxTab : Nat := 0x16bb54b00f2d99416842e6bf0d89a18cdf2855cee9871e9b948ed9691198f8e19e1dc186b95735610ef6034866b53e708a8bbd4b1f74dde8c6b4a61c2e2578ba08ae7a65eaf4566ca94ed58d6d37c8e779e4959162acd3c25c2406490a3a32e0db0b5ede14b8ee4688902a22dc4f816073195d643d7ea7c41744975fec130ccdd2f3ff1021dab6bcf5389d928f40a351a89f3c507f02f94585334d43fbaaefd0cf584c4a39becb6a5bb1fc20ed00d153842fe329b3d63b52a05a6e1b1a2c830975b227ebe28012079a059618c323c7041531d871f1e5a534ccf73f362693fdb7c072a49cafa2d4adf04759fa7dc982ca76abd7fe2b670130c56f6bf27b777c63

/-- The AES inverse S-box packed the same way (FIPS 197 figure 14). -/
def invSboxTab : Nat := 0x7d0c2155631469e126d677ba7e042b17619953833cbbebc8b0f52aae4d3be0a0ef9cc9939f7ae52d0d4ab519a97f51605fec8027591012b131c7078833a8dd1ff45acd78fec0db9a2079d2c64b3e56fc1bbe18aa0e62b76f89c5291d711af1476edf751ce837f9e28535ade72274ac9673e6b4f0cecff297eadc674f4111913a6b8a130103bdafc1020f3fca8f1e2cd00645b3b80558e4f70ad3bc8c00abd890849d8da75746155edab9edfd5048706c92b6655dcc5ca4d41698688664f6f87225d18b6d49a25b76b224d92866a12e084ec3fa420b954cee3d23c2a632947b54cbe9dec444438e3487ff2f9b8239e37cfbd7f3819ea340bf38a53630d56a0952

/-- AES S-box lookup. -/
def sboxB (x : Nat) : Nat := (sboxTab >>> (8 * x)) % 256

/-- AES inverse S-box lookup. -/
def invSboxB (y : Nat) : Nat := (invSboxTab >>> (8 * y)) % 256

/-- A 16-byte AES state / round-key block. -/
structure Blk where
  x0 : Nat
  x1 : Nat
  x2 : Nat
  x3 : Nat
  x4 : Nat
  x5 : Nat
  x6 : Nat
  x7 : Nat
  x8 : Nat
  x9 : Nat
  x10 : Nat
  x11 : Nat
  x12 : Nat
  x13 : Nat
  x14 : Nat
  x15 : Nat
  deriving Repr, DecidableEq

/-- All sixteen bytes of the block are below 256. -/
def blkOk (b : Blk) : Prop :=
  b.x0 < 256 ∧ b.x1 < 256 ∧ b.x2 < 256 ∧ b.x3 < 256 ∧
  b.x4 < 256 ∧ b.x5 < 256 ∧ b.x6 < 256 ∧ b.x7 < 256 ∧
  b.x8 < 256 ∧ b.x9 < 256 ∧ b.x10 < 256 ∧ b.x11 < 256 ∧
  b.x12 < 256 ∧ b.x13 < 256 ∧ b.x14 < 256 ∧ b.x15 < 256

/-- Bytes (padded or truncated to 16) to a block. -/
def toBlk (l : Bytes) : Blk :=
  ⟨l.getD 0 0, l.getD 1 0, l.getD 2 0, l.getD 3 0,
   l.getD 4 0, l.getD 5 0, l.getD 6 0, l.getD 7 0,
   l.getD 8 0, l.getD 9 0, l.getD 10 0, l.getD 11 0,
   l.getD 12 0, l.getD 13 0, l.getD 14 0, l.getD 15 0⟩

/-- Block to its 16 bytes. -/
def ofBlk (b : Blk) : Bytes :=
  [b.x0, b.x1, b.x2, b.x3, b.x4, b.x5, b.x6, b.x7,
   b.x8, b.x9, b.x10, b.x11, b.x12, b.x13, b.x14, b.x15]

/-- `AddRoundKey`: bytewise XOR with the round key. -/
def addRk (b k : Blk) : Blk :=
  ⟨b.x0 ^^^ k.x0, b.x1 ^^^ k.x1, b.x2 ^^^ k.x2, b.x3 ^^^ k.x3,
   b.x4 ^^^ k.x4, b.x5 ^^^ k.x5, b.x6 ^^^ k.x6, b.x7 ^^^ k.x7,
   b.x8 ^^^ k.x8, b.x9 ^^^ k.x9, b.x10 ^^^ k.x10, b.x11 ^^^ k.x11,
   b.x12 ^^^ k.x12, b.x13 ^^^ k.x13, b.x14 ^^^ k.x14, b.x15 ^^^ k.x15⟩

/-- `SubBytes`. -/
def subBytesB (b : Blk) : Blk :=
  ⟨sboxB b.x0, sboxB b.x1, sboxB b.x2, sboxB b.x3,
   sboxB b.x4, sboxB b.x5, sboxB b.x6, sboxB b.x7,
   sboxB b.x8, sboxB b.x9, sboxB b.x10, sboxB b.x11,
   sboxB b.x12, sboxB b.x13, sboxB b.x14, sboxB b.x15⟩

/-- `InvSubBytes`. -/
def invSubBytesB (b : Blk) : Blk :=
  ⟨invSboxB b.x0, invSboxB b.x1, invSboxB b.x2, invSboxB b.x3,
   invSboxB b.x4, invSboxB b.x5, invSboxB b.x6, invSboxB b.x7,
   invSboxB b.x8, invSboxB b.x9, invSboxB b.x10, invSboxB b.x11,
   invSboxB b.x12, invSboxB b.x13, invSboxB b.x14, invSboxB b.x15⟩

/-- `ShiftRows` in column-major byte order (byte `r + 4c` is row `r`). -/
def shiftRowsB (b : Blk) : Blk :=
  ⟨b.x0, b.x5, b.x10, b.x15,
   b.x4, b.x9, b.x14, b.x3,
   b.x8, b.x13, b.x2, b.x7,
   b.x12, b.x1, b.x6, b.x11⟩

/-- `InvShiftRows`. -/
def invShiftRowsB (b : Blk) : Blk :=
  ⟨b.x0, b.x13, b.x10, b.x7,
   b.x4, b.x1, b.x14, b.x11,
   b.x8, b.x5, b.x2, b.x15,
   b.x12, b.x9, b.x6, b.x3⟩

/-- GF(2^8) multiplication by 2. -/
def g2 (b : Nat) : Nat := xtime b

/-- GF(2^8) multiplication by 3. -/
def g3 (b : Nat) : Nat := xtime b ^^^ b

/-- GF(2^8) multiplication by 9. -/
def g9 (b : Nat) : Nat := xtime (xtime (xtime b)) ^^^ b

/-- GF(2^8) multiplication by 11. -/
def g11 (b : Nat) : Nat := xtime (xtime (xtime b)) ^^^ xtime b ^^^ b

/-- GF(2^8) multiplication by 13. -/
def g13 (b : Nat) : Nat := xtime (xtime (xtime b)) ^^^ xtime (xtime b) ^^^ b

/-- GF(2^8) multiplication by 14. -/
def g14 (b : Nat) : Nat := xtime (xtime (xtime b)) ^^^ xtime (xtime b) ^^^ xtime b

/-- `MixColumns` on one column. -/
def mixCol (a0 a1 a2 a3 : Nat) : Nat × Nat × Nat × Nat :=
  (g2 a0 ^^^ g3 a1 ^^^ a2 ^^^ a3,
   a0 ^^^ g2 a1 ^^^ g3 a2 ^^^ a3,
   a0 ^^^ a1 ^^^ g2 a2 ^^^ g3 a3,
   g3 a0 ^^^ a1 ^^^ a2 ^^^ g2 a3)

/-- `InvMixColumns` on one column. -/
def invMixCol (a0 a1 a2 a3 : Nat) : Nat × Nat × Nat × Nat :=
  (g14 a0 ^^^ g11 a1 ^^^ g13 a2 ^^^ g9 a3,
   g9 a0 ^^^ g14 a1 ^^^ g11 a2 ^^^ g13 a3,
   g13 a0 ^^^ g9 a1 ^^^ g14 a2 ^^^ g11 a3,
   g11 a0 ^^^ g13 a1 ^^^ g9 a2 ^^^ g14 a3)

/-- `MixColumns`. -/
def mixColumnsB (b : Blk) : Blk :=
  let c0 := mixCol b.x0 b.x1 b.x2 b.x3
  let c1 := mixCol b.x4 b.x5 b.x6 b.x7
  let c2 := mixCol b.x8 b.x9 b.x10 b.x11
  let c3 := mixCol b.x12 b.x13 b.x14 b.x15
  ⟨c0.1, c0.2.1, c0.2.2.1, c0.2.2.2,
   c1.1, c1.2.1, c1.2.2.1, c1.2.2.2,
   c2.1, c2.2.1, c2.2.2.1, c2.2.2.2,
   c3.1, c3.2.1, c3.2.2.1, c3.2.2.2⟩

/-- `InvMixColumns`. -/
def invMixColumnsB (b : Blk) : Blk :=
  let c0 := invMixCol b.x0 b.x1 b.x2 b.x3
  let c1 := invMixCol b.x4 b.x5 b.x6 b.x7
  let c2 := invMixCol b.x8 b.x9 b.x10 b.x11
  let c3 := invMixCol b.x12 b.x13 b.x14 b.x15
  ⟨c0.1, c0.2.1, c0.2.2.1, c0.2.2.2,
   c1.1, c1.2.1, c1.2.2.1, c1.2.2.2,
   c2.1, c2.2.1, c2.2.2.1, c2.2.2.2,
   c3.1, c3.2.1, c3.2.2.1, c3.2.2.2⟩

/-! ### AES key expansion -/

/-- XOR of two 4-byte words. -/
def xorW (a b : Bytes) : Bytes := List.zipWith Nat.xor a b

/-- `SubWord`. -/
def subWord (w : Bytes) : Bytes := w.map sboxB

/-- `RotWord`. -/
def rotWord (w : Bytes) : Bytes :=
  match w with
  | a :: rest => rest ++ [a]
  | [] => []

/-- AES round-constant bytes `Rcon_1 ..`. -/
def rconTab : List Nat := [1, 2, 4, 8, 16, 32, 64, 128, 0x1b, 0x36]

/-- One step of the FIPS 197 key expansion: append word `i`. -/
def kexStep (nk : Nat) (acc : List Bytes) : List Bytes :=
  let i := acc.length
  let t0 := acc.getD (i - 1) []
  let t :=
    if i % nk == 0 then
      xorW (subWord (rotWord t0)) [rconTab.getD (i / nk - 1) 0, 0, 0, 0]
    else if nk > 6 ∧ i % nk == 4 then subWord t0
    else t0
  acc ++ [xorW (acc.getD (i - nk) []) t]

/-- Full key expansion: round keys as blocks, for `nk` key words
(`nk = 4` for AES-128, `nk = 8` for AES-256; `nr = nk + 6`). -/
def keyExpand (nk : Nat) (key : Bytes) : List Blk :=
  let words := iterN (kexStep nk) (4 * (nk + 7) - nk) (chunkList 4 key)
  (chunkList 4 words).map (fun ws => toBlk (ws.flatMap id))

/-- One middle encryption round. -/
def encRound (st : Blk) (rk : Blk) : Blk :=
  addRk (mixColumnsB (shiftRowsB (subBytesB st))) rk

/-- One middle decryption round (FIPS 197 `InvCipher` loop body). -/
def decRound (rk : Blk) (st : Blk) : Blk :=
  invMixColumnsB (addRk (invSubBytesB (invShiftRowsB st)) rk)

/-- AES block encryption given the expanded round keys. -/
def aesEncBlk (rks : List Blk) (b : Blk) : Blk :=
  let nr := rks.length - 1
  let mid := (rks.drop 1).take (nr - 1)
  let st := mid.foldl encRound (addRk b (rks.getD 0 (toBlk [])))
  addRk (shiftRowsB (subBytesB st)) (rks.getD nr (toBlk []))

/-- AES block decryption given the expanded round keys. -/
def aesDecBlk (rks : List Blk) (c : Blk) : Blk :=
  let nr := rks.length - 1
  let mid := (rks.drop 1).take (nr - 1)
  let st := mid.foldr decRound (addRk c (rks.getD nr (toBlk [])))
  addRk (invSubBytesB (invShiftRowsB st)) (rks.getD 0 (toBlk []))

/-- AES-128 encryption of one 16-byte block. -/
def aes128Enc (key blk : Bytes) : Bytes := ofBlk (aesEncBlk (keyExpand 4 key) (toBlk blk))

/-- AES-256 encryption of one 16-byte block. -/
def aes256Enc (key blk : Bytes) : Bytes := ofBlk (aesEncBlk (keyExpand 8 key) (toBlk blk))

/-! ## AES-GCM (NIST SP 800-38D, 96-bit IV, 16-byte tag)

Modelled from the spec: GCM is the AEAD construction behind `AESGCM128` and
`AESGCM256`; output is `ciphertext ‖ tag` as §4.1 of the spec states. -/

/-- One step of the GF(2^128) multiplication (SP 800-38D algorithm 1). -/
def gf128MulAux : Nat → Nat → Nat → Nat → Nat
  | 0, _, _, z => z
  | n + 1, x, v, z =>
      let z := if (x >>> 127) % 2 == 1 then z ^^^ v else z
      let v := if v % 2 == 1 then (v >>> 1) ^^^ (0xe1 <<< 120) else v >>> 1
      gf128MulAux n ((x <<< 1) % (2 ^ 128)) v z

/-- GF(2^128) multiplication in GCM bit order. -/
def gf128Mul (x y : Nat) : Nat := gf128MulAux 128 x y 0

/-- Zero padding of a byte string to a multiple of 16 bytes. -/
def padTo16 (l : Bytes) : Bytes := l ++ List.replicate ((16 - l.length % 16) % 16) 0

/-- GHASH of the already padded data under hash subkey `h`. -/
def ghash (h : Nat) (data : Bytes) : Nat :=
  (chunkList 16 data).foldl (fun y blk => gf128Mul (y ^^^ beVal blk) h) 0

/-- 32-bit increment of the low word of a 128-bit counter block. -/
def inc32 (c : Nat) : Nat := (c / 2 ^ 32) * 2 ^ 32 + (c + 1) % 2 ^ 32

/-- Concatenated CTR keystream blocks `E(ctr), E(ctr+1), ...`. -/
def ctrBlocks (encB : Bytes → Bytes) (ctr : Nat) : Nat → Bytes
  | 0 => []
  | k + 1 => encB (beBytes 16 ctr) ++ ctrBlocks encB (inc32 ctr) k

/-- GCM authentication tag over `aad` and ciphertext `ct`. -/
def gcmTag (encB : Bytes → Bytes) (j0 : Nat) (aad ct : Bytes) : Bytes :=
  let h := beVal (encB (List.replicate 16 0))
  let s := ghash h (padTo16 aad ++ padTo16 ct
      ++ beBytes 8 (8 * aad.length) ++ beBytes 8 (8 * ct.length))
  xorBytes (encB (beBytes 16 j0)) (beBytes 16 s)

/-- GCM keystream of `len` bytes starting at `inc32 j0`. -/
def gcmKeystream (encB : Bytes → Bytes) (j0 : Nat) (len : Nat) : Bytes :=
  (ctrBlocks encB (inc32 j0) ((len + 15) / 16)).take len

/-- GCM authenticated encryption: returns `ciphertext ‖ tag`. -/
def gcmEncrypt (encB : Bytes → Bytes) (iv aad pt : Bytes) : Bytes :=
  let j0 := beVal (iv ++ [0, 0, 0, 1])
  let ct := xorBytes pt (gcmKeystream encB j0 pt.length)
  ct ++ gcmTag encB j0 aad ct

/-- GCM authenticated decryption of `ciphertext ‖ tag`. -/
def gcmDecrypt (encB : Bytes → Bytes) (iv aad ctt : Bytes) : Option Bytes :=
  let j0 := beVal (iv ++ [0, 0, 0, 1])
  let n := ctt.length - 16
  let ct := ctt.take n
  let tag := ctt.drop n
  if tag = gcmTag encB j0 aad ct then
    some (xorBytes ct (gcmKeystream encB j0 ct.length))
  else none

/-! ## ChaCha20-Poly1305 (RFC 8439)

Modelled from the spec: the `ChaCha20Poly1305` cipher used by `getCipher` is
not among the provided sources; it is modelled from RFC 8439. -/

/-- Little-endian bytes to a natural number. -/
def leVal (bs : Bytes) : Nat := bs.foldr (fun b acc => b + 256 * acc) 0

/-- Little-endian encoding of `v` into exactly `n` bytes. -/
def leBytes (n : Nat) (v : Nat) : Bytes :=
  match n with
  | 0 => []
  | m + 1 => v % 256 :: leBytes m (v / 256)

/-- Little-endian 32-bit words from bytes. -/
def leWords : Bytes → List Nat
  | a :: b :: c :: d :: rest => (a + 256 * (b + 256 * (c + 256 * d))) :: leWords rest
  | _ => []

/-- 32-bit left rotation. -/
def rotl32 (n x : Nat) : Nat := ((x <<< n) ||| (x >>> (32 - n))) % 4294967296

/-- ChaCha20 quarter round on state words `a b c d`. -/
def qround (st : List Nat) (a b c d : Nat) : List Nat :=
  let A0 := st.getD a 0
  let B0 := st.getD b 0
  let C0 := st.getD c 0
  let D0 := st.getD d 0
  let A1 := add32 A0 B0
  let D1 := rotl32 16 (D0 ^^^ A1)
  let C1 := add32 C0 D1
  let B1 := rotl32 12 (B0 ^^^ C1)
  let A2 := add32 A1 B1
  let D2 := rotl32 8 (D1 ^^^ A2)
  let C2 := add32 C1 D2
  let B2 := rotl32 7 (B1 ^^^ C2)
  (((st.set a A2).set b B2).set c C2).set d D2

/-- One ChaCha20 double round (column round then diagonal round). -/
def chachaDoubleRound (st : List Nat) : List Nat :=
  let st := qround st 0 4 8 12
  let st := qround st 1 5 9 13
  let st := qround st 2 6 10 14
  let st := qround st 3 7 11 15
  let st := qround st 0 5 10 15
  let st := qround st 1 6 11 12
  let st := qround st 2 7 8 13
  qround st 3 4 9 14

/-- The ChaCha20 block function: 64 bytes for a given counter. -/
def chachaBlock (key nonce : Bytes) (ctr : Nat) : Bytes :=
  let st0 := [0x61707865, 0x3320646e, 0x79622d32, 0x6b206574]
      ++ leWords key ++ [ctr % 4294967296] ++ leWords nonce
  let st := iterN chachaDoubleRound 10 st0
  (List.zipWith add32 st st0).flatMap (leBytes 4)

/-- ChaCha20 keystream blocks starting at counter `ctr`. -/
def chachaKsBlocks (key nonce : Bytes) (ctr : Nat) : Nat → Bytes
  | 0 => []
  | k + 1 => chachaBlock key nonce ctr ++ chachaKsBlocks key nonce (ctr + 1) k

/-- ChaCha20 keystream of `len` bytes starting at counter `ctr`. -/
def chachaKeystream (key nonce : Bytes) (ctr len : Nat) : Bytes :=
  (chachaKsBlocks key nonce ctr ((len + 63) / 64)).take len

/-- Poly1305 one-time authenticator (RFC 8439 §2.5). -/
def poly1305 (otk msg : Bytes) : Bytes :=
  let r := leVal (otk.take 16) &&& 0x0ffffffc0ffffffc0ffffffc0fffffff
  let s := leVal (otk.drop 16)
  let p := 2 ^ 130 - 5
  let acc := (chunkList 16 msg).foldl
    (fun acc chunk => ((acc + leVal chunk + 2 ^ (8 * chunk.length)) * r) % p) 0
  leBytes 16 ((acc + s) % 2 ^ 128)

/-- The Poly1305 message for AEAD: padded aad, padded ciphertext, lengths. -/
def chachaPolyMacData (aad ct : Bytes) : Bytes :=
  padTo16 aad ++ padTo16 ct ++ leBytes 8 aad.length ++ leBytes 8 ct.length

/-- ChaCha20-Poly1305 AEAD encryption: returns `ciphertext ‖ tag`. -/
def chachaPolyEncrypt (key nonce aad pt : Bytes) : Bytes :=
  let otk := (chachaBlock key nonce 0).take 32
  let ct := xorBytes pt (chachaKeystream key nonce 1 pt.length)
  ct ++ poly1305 otk (chachaPolyMacData aad ct)

/-- ChaCha20-Poly1305 AEAD decryption of `ciphertext ‖ tag`. -/
def chachaPolyDecrypt (key nonce aad ctt : Bytes) : Option Bytes :=
  let otk := (chachaBlock key nonce 0).take 32
  let n := ctt.length - 16
  let ct := ctt.take n
  let tag := ctt.drop n
  if tag = poly1305 otk (chachaPolyMacData aad ct) then
    some (xorBytes ct (chachaKeystream key nonce 1 ct.length))
  else none

/-! ## AES-OCB (RFC 7253, 96-bit nonce, 16-byte tag)

Modelled from the spec: the experimental `AESOCB128` cipher used by
`getCipher` is not among the provided sources; it is modelled from RFC 7253.
OCB internals work on 128-bit block values. -/

/-- Doubling in GF(2^128) for OCB offset generation. -/
def ocbDouble (s : Nat) : Nat :=
  ((s <<< 1) ^^^ (if s >>> 127 == 1 then 0x87 else 0)) % 2 ^ 128

/-- Number of trailing zero bits (fuel-bounded helper). -/
def ntzAux : Nat → Nat → Nat
  | 0, _ => 0
  | f + 1, n => if n % 2 == 1 ∨ n == 0 then 0 else 1 + ntzAux f (n / 2)

/-- Number of trailing zero bits of `n`. -/
def ntz (n : Nat) : Nat := ntzAux n n

/-- The OCB offset increments `L_0, L_1, ...` derived from `L_$`. -/
def ocbLi (ldollar : Nat) : Nat → Nat
  | 0 => ocbDouble ldollar
  | i + 1 => ocbDouble (ocbLi ldollar i)

/-- OCB processing of the full plaintext blocks: returns the ciphertext
blocks, the final offset, and the plaintext checksum. -/
def ocbEncBlocks (encN : Nat → Nat) (ldollar : Nat) :
    List Bytes → Nat → Nat → Nat → (List Bytes × Nat × Nat)
  | [], off, _, chk => ([], off, chk)
  | p :: rest, off, i, chk =>
      let off1 := off ^^^ ocbLi ldollar (ntz i)
      let c := off1 ^^^ encN (beVal p ^^^ off1)
      let r := ocbEncBlocks encN ldollar rest off1 (i + 1) (chk ^^^ beVal p)
      (beBytes 16 c :: r.1, r.2)

/-- OCB processing of the full ciphertext blocks on decryption: returns the
plaintext blocks, the final offset, and the recovered plaintext checksum. -/
def ocbDecBlocks (decN : Nat → Nat) (ldollar : Nat) :
    List Bytes → Nat → Nat → Nat → (List Bytes × Nat × Nat)
  | [], off, _, chk => ([], off, chk)
  | c :: rest, off, i, chk =>
      let off1 := off ^^^ ocbLi ldollar (ntz i)
      let pN := off1 ^^^ decN (beVal c ^^^ off1)
      let r := ocbDecBlocks decN ldollar rest off1 (i + 1) (chk ^^^ pN)
      (beBytes 16 pN :: r.1, r.2)

/-- OCB `HASH` full-block recursion: returns `(sum, final offset)`. -/
def ocbHashBlocks (encN : Nat → Nat) (ldollar : Nat) :
    List Bytes → Nat → Nat → Nat → (Nat × Nat)
  | [], off, _, sum => (sum, off)
  | a :: rest, off, i, sum =>
      let off := off ^^^ ocbLi ldollar (ntz i)
      ocbHashBlocks encN ldollar rest off (i + 1) (sum ^^^ encN (beVal a ^^^ off))

/-- OCB `HASH(K, A)` (RFC 7253 §4.1). -/
def ocbHash (encN : Nat → Nat) (lstar ldollar : Nat) (aad : Bytes) : Nat :=
  let m := aad.length / 16
  let fulls := (chunkList 16 aad).take m
  let rem := aad.drop (16 * m)
  let r := ocbHashBlocks encN ldollar fulls 0 1 0
  if rem.length == 0 then r.1
  else
    let astar := beVal (rem ++ 128 :: List.replicate (15 - rem.length) 0)
    r.1 ^^^ encN (astar ^^^ (r.2 ^^^ lstar))

/-- The initial OCB offset derived from the 96-bit nonce (RFC 7253 §4.2,
128-bit tag, so the leading seven Nonce bits are zero). -/
def ocbOffset0 (encN : Nat → Nat) (nonce : Bytes) : Nat :=
  let nN := beVal ([0, 0, 0, 1] ++ nonce)
  let bottom := nN % 64
  let ktop := encN (nN - bottom)
  let stretch := (ktop <<< 64) ||| ((ktop >>> 64) ^^^ ((ktop >>> 56) % 2 ^ 64))
  (stretch >>> (64 - bottom)) % 2 ^ 128

/-- OCB authenticated encryption: returns `ciphertext ‖ tag`. -/
def ocbEncryptN (encN : Nat → Nat) (nonce aad pt : Bytes) : Bytes :=
  let lstar := encN 0
  let ldollar := ocbDouble lstar
  let off0 := ocbOffset0 encN nonce
  let m := pt.length / 16
  let fulls := (chunkList 16 pt).take m
  let rem := pt.drop (16 * m)
  let r := ocbEncBlocks encN ldollar fulls off0 1 0
  let hashA := ocbHash encN lstar ldollar aad
  if rem.length == 0 then
    let tagN := encN (r.2.2 ^^^ r.2.1 ^^^ ldollar) ^^^ hashA
    r.1.flatMap id ++ beBytes 16 tagN
  else
    let offstar := r.2.1 ^^^ lstar
    let pad := encN offstar
    let cstar := xorBytes rem ((beBytes 16 pad).take rem.length)
    let chkstar := r.2.2 ^^^ beVal (rem ++ 128 :: List.replicate (15 - rem.length) 0)
    let tagN := encN (chkstar ^^^ offstar ^^^ ldollar) ^^^ hashA
    r.1.flatMap id ++ cstar ++ beBytes 16 tagN

/-- OCB authenticated decryption of `ciphertext ‖ tag`. -/
def ocbDecryptN (encN decN : Nat → Nat) (nonce aad ctt : Bytes) : Option Bytes :=
  let lstar := encN 0
  let ldollar := ocbDouble lstar
  let off0 := ocbOffset0 encN nonce
  let n := ctt.length - 16
  let ct := ctt.take n
  let tag := ctt.drop n
  let m := ct.length / 16
  let fulls := (chunkList 16 ct).take m
  let rem := ct.drop (16 * m)
  let r := ocbDecBlocks decN ldollar fulls off0 1 0
  let hashA := ocbHash encN lstar ldollar aad
  if rem.length == 0 then
    let tagN := encN (r.2.2 ^^^ r.2.1 ^^^ ldollar) ^^^ hashA
    if tag = beBytes 16 tagN then some (r.1.flatMap id) else none
  else
    let offstar := r.2.1 ^^^ lstar
    let pad := encN offstar
    let pstar := xorBytes rem ((beBytes 16 pad).take rem.length)
    let chkstar := r.2.2 ^^^ beVal (pstar ++ 128 :: List.replicate (15 - pstar.length) 0)
    let tagN := encN (chkstar ^^^ offstar ^^^ ldollar) ^^^ hashA
    if tag = beBytes 16 tagN then some (r.1.flatMap id ++ pstar) else none

/-- AES-128 block encryption as a 128-bit value map. -/
def aes128EncN (key : Bytes) (n : Nat) : Nat := beVal (aes128Enc key (beBytes 16 n))

/-- AES-128 block decryption as a 128-bit value map. -/
def aes128DecN (key : Bytes) (n : Nat) : Nat :=
  beVal (ofBlk (aesDecBlk (keyExpand 4 key) (toBlk (beBytes 16 n))))

/-- AES-128-OCB AEAD encryption. -/
def aesOcb128Encrypt (key nonce aad pt : Bytes) : Bytes :=
  ocbEncryptN (aes128EncN key) nonce aad pt

/-- AES-128-OCB AEAD decryption. -/
def aesOcb128Decrypt (key nonce aad ctt : Bytes) : Option Bytes :=
  ocbDecryptN (aes128EncN key) (aes128DecN key) nonce aad ctt

/-! ## HPKE suite ids, labeled HKDF, and the HPKE context

Modelled from the spec: `generateHpkeSuiteId`, `fizz::hpke::Hkdf` and
`HpkeContext` are exercised by `HpkeContextTest.cpp` but are not among the
provided sources.  They are modelled from spec §3, §4.2, §4.4 and §6:
`suite_id = "HPKE" ‖ I2OSP(kem,2) ‖ I2OSP(kdf,2) ‖ I2OSP(aead,2)` and
`labeledExpand(prk, label, info, L) =
   expand(prk, I2OSP(L,2) ‖ prefixLabel ‖ suite_id ‖ label ‖ info, L)`
with the context's suite id mixed into the labeled-expand call.  The HKDF
instances constructed in the test all use SHA-256. -/

/-- HPKE KEM registry id of a named group. -/
def kemId : NamedGroup → Nat
  | .secp256r1 => 0x10
  | .secp384r1 => 0x11
  | .secp521r1 => 0x12
  | .x25519 => 0x20
  | _ => 0

/-- HPKE KDF registry id of a hash function. -/
def kdfId : HashFunction → Nat
  | .Sha256 => 1
  | .Sha384 => 2
  | .Sha512 => 3

/-- HPKE AEAD registry id of a cipher suite's AEAD (suites without an HPKE
registry entry are not used by the embedded tests). -/
def aeadId : CipherSuite → Nat
  | .TLS_AES_128_GCM_SHA256 => 1
  | .TLS_AES_256_GCM_SHA384 => 2
  | .TLS_CHACHA20_POLY1305_SHA256 => 3
  | _ => 0

/-- `generateHpkeSuiteId`: `"HPKE"` then the three big-endian 2-byte ids. -/
def generateHpkeSuiteId (group : NamedGroup) (hash : HashFunction)
    (suite : CipherSuite) : Bytes :=
  asciiBytes "HPKE" ++ beBytes 2 (kemId group) ++ beBytes 2 (kdfId hash)
    ++ beBytes 2 (aeadId suite)

/-- HPKE labeled expand (SHA-256 HKDF): the labeled info is
`I2OSP(L,2) ‖ prefixLabel ‖ suiteId ‖ label ‖ info`. -/
def labeledExpand (pfx suiteId prk label info : Bytes) (L : Nat) : Bytes :=
  hkdfExpandSha256 prk (beBytes 2 L ++ pfx ++ suiteId ++ label ++ info) L

/-- A traffic key: AEAD key and IV, as installed by `setKey`. -/
structure TrafficKey where
  key : Bytes
  iv : Bytes
  deriving Repr, DecidableEq

/-- The concrete ciphers `getCipher` in the test can construct. -/
inductive CipherKind where
  | aesGcm128
  | aesGcm256
  | chacha20Poly1305
  | aesOcb128
  deriving DecidableEq, Repr

/-- Declared key length of each cipher. -/
def CipherKind.keyLen : CipherKind → Nat
  | .aesGcm128 => 16
  | .aesGcm256 => 32
  | .chacha20Poly1305 => 32
  | .aesOcb128 => 16

/-- Declared nonce (IV) length of each cipher. -/
def CipherKind.nonceLen : CipherKind → Nat
  | _ => 12

/-- Raw AEAD encryption of each cipher: `key nonce aad pt ↦ ct ‖ tag`. -/
def cipherEnc : CipherKind → Bytes → Bytes → Bytes → Bytes → Bytes
  | .aesGcm128, key, nonce, aad, pt => gcmEncrypt (aes128Enc key) nonce aad pt
  | .aesGcm256, key, nonce, aad, pt => gcmEncrypt (aes256Enc key) nonce aad pt
  | .chacha20Poly1305, key, nonce, aad, pt => chachaPolyEncrypt key nonce aad pt
  | .aesOcb128, key, nonce, aad, pt => aesOcb128Encrypt key nonce aad pt

/-- Raw AEAD decryption of each cipher: `key nonce aad (ct ‖ tag) ↦ pt?`. -/
def cipherDec : CipherKind → Bytes → Bytes → Bytes → Bytes → Option Bytes
  | .aesGcm128, key, nonce, aad, ctt => gcmDecrypt (aes128Enc key) nonce aad ctt
  | .aesGcm256, key, nonce, aad, ctt => gcmDecrypt (aes256Enc key) nonce aad ctt
  | .chacha20Poly1305, key, nonce, aad, ctt => chachaPolyDecrypt key nonce aad ctt
  | .aesOcb128, key, nonce, aad, ctt => aesOcb128Decrypt key nonce aad ctt

/-- An AEAD instance: constructed unkeyed, keyed once via `setKey`, with an
optional encrypted-buffer headroom hint (a pure layout hint). -/
structure Aead where
  kind : CipherKind
  tk : Option TrafficKey
  headroom : Nat
  deriving Repr, DecidableEq

/-- A freshly constructed (unkeyed) AEAD, as `makeCipher` returns. -/
def mkAead (kind : CipherKind) : Aead := ⟨kind, none, 0⟩

/-- Error kinds surfaced by the AEAD and HPKE layers (spec §7). -/
inductive HpkeError where
  | keyLengthMismatch
  | aeadNotKeyed
  | authFailure
  | sequenceOverflow
  | exportTooLarge
  deriving DecidableEq, Repr

/-- `Aead::setKey`: installs key and IV; fails on a length mismatch. -/
def Aead.setKey (a : Aead) (tk : TrafficKey) : Except HpkeError Aead :=
  if tk.key.length = a.kind.keyLen ∧ tk.iv.length = a.kind.nonceLen then
    .ok { a with tk := some tk }
  else .error .keyLengthMismatch

/-- `Aead::setEncryptedBufferHeadroom`: records the headroom hint. -/
def Aead.setEncryptedBufferHeadroom (a : Aead) (n : Nat) : Aead :=
  { a with headroom := n }

/-- `Aead::encrypt` through the installed traffic key. -/
def Aead.encrypt (a : Aead) (nonce aad pt : Bytes) : Except HpkeError Bytes :=
  match a.tk with
  | none => .error .aeadNotKeyed
  | some tk => .ok (cipherEnc a.kind tk.key nonce aad pt)

/-- `Aead::decrypt` through the installed traffic key. -/
def Aead.decrypt (a : Aead) (nonce aad ctt : Bytes) : Except HpkeError Bytes :=
  match a.tk with
  | none => .error .aeadNotKeyed
  | some tk =>
      match cipherDec a.kind tk.key nonce aad ctt with
      | some pt => .ok pt
      | none => .error .authFailure

/-- The HPKE context (spec §3): keyed AEAD, exporter secret, the labeled
HKDF's version-label bytes (SHA-256 HKDF), suite id, sequence counter. -/
structure HpkeContext where
  aead : Aead
  exporterSecret : Bytes
  hkdfLabel : Bytes
  suiteId : Bytes
  seq : Nat
  deriving Repr, DecidableEq

/-- Largest sequence number representable in the AEAD's nonce width. -/
def HpkeContext.maxSeq (c : HpkeContext) : Nat :=
  2 ^ (8 * c.aead.kind.nonceLen) - 1

/-- `computeNonce(seq)`: big-endian `nonce_len`-byte `seq` XOR the IV. -/
def HpkeContext.computeNonce (c : HpkeContext) : Bytes :=
  match c.aead.tk with
  | none => []
  | some tk => xorBytes (beBytes c.aead.kind.nonceLen c.seq) tk.iv

/-- `HpkeContext::seal`: nonce from `seq`, AEAD encrypt, bump `seq`. -/
def HpkeContext.seal (c : HpkeContext) (aad pt : Bytes) :
    Except HpkeError (Bytes × HpkeContext) :=
  if c.seq ≥ c.maxSeq then .error .sequenceOverflow
  else
    match c.aead.encrypt c.computeNonce aad pt with
    | .ok ct => .ok (ct, { c with seq := c.seq + 1 })
    | .error e => .error e

/-- `HpkeContext::open`: nonce from `seq`, AEAD decrypt, bump `seq` only on
success (`AuthFailure` must not advance `seq`). -/
def HpkeContext.openCtx (c : HpkeContext) (aad ctt : Bytes) :
    Except HpkeError (Bytes × HpkeContext) :=
  if c.seq ≥ c.maxSeq then .error .sequenceOverflow
  else
    match c.aead.decrypt c.computeNonce aad ctt with
    | .ok pt => .ok (pt, { c with seq := c.seq + 1 })
    | .error e => .error e

/-- `HpkeContext::exportSecret`: HPKE `Context.Export`, i.e. the labeled
expansion of the exporter secret with label `"sec"`; fails with
`ExportTooLarge` when `L` exceeds `255 * hashLen` (SHA-256: 8160). -/
def HpkeContext.exportSecret (c : HpkeContext) (exporterContext : Bytes)
    (L : Nat) : Except HpkeError Bytes :=
  if L > 255 * 32 then .error .exportTooLarge
  else .ok (labeledExpand c.hkdfLabel c.suiteId c.exporterSecret
      (asciiBytes "sec") exporterContext L)

/-! ## The test harness (embedded from fizz/crypto/test/HpkeContextTest.cpp) -/

/-- One row of the `TestVectors` instantiation. -/
structure Params where
  key : String
  iv : String
  aad : String
  plaintext : String
  ciphertext : String
  cipher : CipherSuite
  exporterSecret : String
  exportContext : String
  expectedExportValue : String

/-- `kExportSecret` from the test file. -/
def kExportSecret : String :=
  "60f5fe76e2699f98c19eab82fecf330b990ac32694a8e40e598e2326d0e29150"

/-- `kHeadroom` from the test file. -/
def kHeadroom : Nat := 10

/-- `kPrefix` from the test file: the HPKE draft-05 version label. -/
def kPrefixLabel : String := "HPKE-05 "

/-- `getCipher`: pick the cipher for the suite, install the traffic key,
set the headroom hint.  (Suites outside the switch throw; the embedded
tests only use the four supported ones.) -/
def cipherKindOf : CipherSuite → Option CipherKind
  | .TLS_AES_128_GCM_SHA256 => some .aesGcm128
  | .TLS_AES_256_GCM_SHA384 => some .aesGcm256
  | .TLS_CHACHA20_POLY1305_SHA256 => some .chacha20Poly1305
  | .TLS_AES_128_OCB_SHA256_EXPERIMENTAL => some .aesOcb128
  | _ => none

/-- `getCipher` on a supported suite (keyed, headroom `kHeadroom`). -/
def getCipher (p : Params) : Option Aead :=
  match cipherKindOf p.cipher with
  | none => none
  | some kind =>
      match (mkAead kind).setKey ⟨hexBytes p.key, hexBytes p.iv⟩ with
      | .ok a => some (a.setEncryptedBufferHeadroom kHeadroom)
      | .error _ => none

/-- The context `TestContext` builds: `getCipher`, `kExportSecret`, the
`"HPKE-05 "`-labeled SHA-256 HKDF, and the suite id for
`(secp256r1, SHA-256, cipher)`. -/
def mkTestContext (p : Params) : Option HpkeContext :=
  match getCipher p with
  | none => none
  | some a =>
      some ⟨a, hexBytes kExportSecret, asciiBytes kPrefixLabel,
        generateHpkeSuiteId .secp256r1 .Sha256 p.cipher, 0⟩

/-- Test vector 1: AES-128-GCM seal/export. -/
def params1 : Params :=
  ⟨"f0529818bc7e87857fd38eeca1a47020", "4bbcb168c8486e04b9382642",
   "436f756e742d30",
   "4265617574792069732074727574682c20747275746820626561757479",
   "9076d402a8bacf1721ce194185de331c014c55dd801ae92aa63017a1f0c0dff615d4bcbc03d22f6d635e89b4c2",
   .TLS_AES_128_GCM_SHA256,
   "7e9ef6d537503f815d0eaf70550a1f8e9af12c1cccb76919aafe93535547c150",
   "436f6e746578742d30",
   "bd292b132fae00243851451c3f3a87e9e11c3293c14d61b114b7e12e07245ffd"⟩

/-- Test vector 2: second AES-128-GCM row. -/
def params2 : Params :=
  ⟨"550ee0b7ec1ea2532f2e2bac87040a4c", "2b855847756795a57229559a",
   "436f756e742d30",
   "4265617574792069732074727574682c20747275746820626561757479",
   "971ba65db526758ea30ae748cd769bc8d90579b62a037816057f24ce427416bd47c05ed1c2446ac8e19ec9ae79",
   .TLS_AES_128_GCM_SHA256,
   "7e9ef6d537503f815d0eaf70550a1f8e9af12c1cccb76919aafe93535547c150",
   "436f6e746578742d31",
   "695de26bc9336caee01cb04826f6e224f4d2108066ab17fc18f0c993dce05f24"⟩

/-- Test vector 3: AES-256-GCM seal/export. -/
def params3 : Params :=
  ⟨"E3C08A8F06C6E3AD95A70557B23F75483CE33021A9C72B7025666204C69C0B72",
   "12153524C0895E81B2C28465",
   "D609B1F056637A0D46DF998D88E52E00B2C2846512153524C0895E81",
   "08000F101112131415161718191A1B1C1D1E1F202122232425262728292A2B2C2D2E2F303132333435363738393A0002",
   "E2006EB42F5277022D9B19925BC419D7A592666C925FE2EF718EB4E308EFEAA7C5273B394118860A5BE2A97F56AB78365CA597CDBB3EDB8D1A1151EA0AF7B436",
   .TLS_AES_256_GCM_SHA384,
   "7e9ef6d537503f815d0eaf70550a1f8e9af12c1cccb76919aafe93535547c150",
   "436f6e746578742d32",
   "c53f26ef1bf4f5fd5469d807c418a0e103d035c76ccdbc6afb5bc42b24968f6c"⟩

/-- Test vector 4: ChaCha20-Poly1305 seal/export, empty aad and plaintext. -/
def params4 : Params :=
  ⟨"9a97f65b9b4c721b960a672145fca8d4e32e67f9111ea979ce9c4826806aeee6",
   "000000003de9c0da2bd7f91e", "", "",
   "5a6e21f4ba6dbee57380e79e79c30def",
   .TLS_CHACHA20_POLY1305_SHA256,
   "7e9ef6d537503f815d0eaf70550a1f8e9af12c1cccb76919aafe93535547c150",
   "436f6e746578742d33",
   "8cea4a595dfe3de84644ca8ea7ea9401a345f0db29bb4beebc2c471afc602ec4"⟩

/-- The context `TestExportSecret` builds: an unkeyed `AESGCM128` cipher,
the vector's exporter secret, the `"HPKE-05 "` SHA-256 HKDF, and the suite
id for `(x25519, SHA-256, TLS_AES_128_GCM_SHA256)`. -/
def mkExportContext (p : Params) : HpkeContext :=
  ⟨mkAead .aesGcm128, hexBytes p.exporterSecret, asciiBytes kPrefixLabel,
   generateHpkeSuiteId .x25519 .Sha256 .TLS_AES_128_GCM_SHA256, 0⟩

instance {ε α : Type} [DecidableEq ε] [DecidableEq α] : DecidableEq (Except ε α) :=
  fun a b =>
  match a, b with
  | .ok x, .ok y =>
      if h : x = y then .isTrue (by rw [h])
      else .isFalse (by intro hc; cases hc; exact h rfl)
  | .error x, .error y =>
      if h : x = y then .isTrue (by rw [h])
      else .isFalse (by intro hc; cases hc; exact h rfl)
  | .ok _, .error _ => .isFalse (by intro hc; cases hc)
  | .error _, .ok _ => .isFalse (by intro hc; cases hc)

/-- The ciphertext `TestContext` observes from the first `seal` on the
encrypt context built for `p` (`none` when the suite is unsupported or a
failure occurs). -/
def sealOut (p : Params) : Option Bytes :=
  match mkTestContext p with
  | some c =>
      match c.seal (hexBytes p.aad) (hexBytes p.plaintext) with
      | .ok r => some r.1
      | .error _ => none
  | none => none

/-- The exported secret `TestExportSecret` observes for `p` (length 32). -/
def exportOut (p : Params) : Option Bytes :=
  match (mkExportContext p).exportSecret (hexBytes p.exportContext) 32 with
  | .ok v => some v
  | .error _ => none

/-! ## Operation traces (for the frame and nonce-sequence claims) -/

/-- A seal or open request, as issued against one context. -/
inductive HpkeOp where
  | sealOp (aad pt : Bytes)
  | openOp (aad ctt : Bytes)

/-- Run one operation: on success the context advances, on failure it is
left as it was. -/
def runOp (c : HpkeContext) (op : HpkeOp) : HpkeContext :=
  match op with
  | .sealOp aad pt =>
      match c.seal aad pt with
      | .ok r => r.2
      | .error _ => c
  | .openOp aad ctt =>
      match c.openCtx aad ctt with
      | .ok r => r.2
      | .error _ => c

/-- Run a list of seal/open operations left to right. -/
def runOps (c : HpkeContext) (ops : List HpkeOp) : HpkeContext :=
  ops.foldl runOp c

/-- The context after `n` successful seals of (`aad`, `pt`). -/
def sealIter (c : HpkeContext) (aad pt : Bytes) : Nat → HpkeContext
  | 0 => c
  | n + 1 => runOp (sealIter c aad pt n) (.sealOp aad pt)

/-! # Theorems -/

/-! ## XOR and byte-bound helpers -/

theorem xorLeftComm (a b c : Nat) : a ^^^ (b ^^^ c) = b ^^^ (a ^^^ c) := by
  rw [← Nat.xor_assoc, Nat.xor_comm a b, Nat.xor_assoc]

theorem xorByteLt {x y : Nat} (hx : x < 256) (hy : y < 256) : x ^^^ y < 256 := by
  have h := Nat.xor_lt_two_pow (x := x) (y := y) (n := 8)
  norm_num at h
  exact h hx hy

theorem xtime_lt (b : Nat) : xtime b < 256 := Nat.mod_lt _ (by norm_num)

theorem xorMod256 (x y : Nat) : (x ^^^ y) % 256 = x % 256 ^^^ y % 256 := by
  have h : ∀ z : Nat, z % 256 = z % 2 ^ 8 := fun z => by norm_num
  rw [h, h, h]
  apply Nat.eq_of_testBit_eq
  intro i
  simp only [Nat.testBit_mod_two_pow, Nat.testBit_xor, Bool.and_xor_distrib_left]

theorem twoMulXor (x y : Nat) : 2 * (x ^^^ y) = 2 * x ^^^ 2 * y := by
  have h : ∀ z : Nat, 2 * z = z <<< 1 := fun z => by rw [Nat.shiftLeft_eq]; ring
  rw [h, h, h]
  apply Nat.eq_of_testBit_eq
  intro i
  simp only [Nat.testBit_shiftLeft, Nat.testBit_xor, Bool.and_xor_distrib_left]

theorem shiftRight7Xor (x y : Nat) : (x ^^^ y) >>> 7 = x >>> 7 ^^^ y >>> 7 := by
  apply Nat.eq_of_testBit_eq
  intro i
  simp only [Nat.testBit_shiftRight, Nat.testBit_xor]

theorem shiftRight7_byte {x : Nat} (hx : x < 256) : x >>> 7 = 0 ∨ x >>> 7 = 1 := by
  rw [Nat.shiftRight_eq_div_pow]
  norm_num
  omega

/-! ## GF(2^8) linearity and the MixColumns inverse -/

theorem xtime_linear {x y : Nat} (hx : x < 256) (hy : y < 256) :
    xtime (x ^^^ y) = xtime x ^^^ xtime y := by
  unfold xtime
  rw [← xorMod256]
  congr 1
  rw [twoMulXor, shiftRight7Xor]
  rcases shiftRight7_byte hx with h1 | h1 <;> rcases shiftRight7_byte hy with h2 | h2 <;>
    rw [h1, h2] <;>
    simp [Nat.xor_assoc, Nat.xor_comm, xorLeftComm, Nat.xor_self, Nat.xor_zero]

theorem g2_linear {x y : Nat} (hx : x < 256) (hy : y < 256) :
    g2 (x ^^^ y) = g2 x ^^^ g2 y := xtime_linear hx hy

theorem g3_linear {x y : Nat} (hx : x < 256) (hy : y < 256) :
    g3 (x ^^^ y) = g3 x ^^^ g3 y := by
  unfold g3
  rw [xtime_linear hx hy]
  simp [Nat.xor_assoc, Nat.xor_comm, xorLeftComm]

theorem g9_linear {x y : Nat} (hx : x < 256) (hy : y < 256) :
    g9 (x ^^^ y) = g9 x ^^^ g9 y := by
  unfold g9
  rw [xtime_linear hx hy, xtime_linear (xtime_lt x) (xtime_lt y),
    xtime_linear (xtime_lt _) (xtime_lt _)]
  simp [Nat.xor_assoc, Nat.xor_comm, xorLeftComm]

theorem g11_linear {x y : Nat} (hx : x < 256) (hy : y < 256) :
    g11 (x ^^^ y) = g11 x ^^^ g11 y := by
  unfold g11
  rw [xtime_linear hx hy, xtime_linear (xtime_lt x) (xtime_lt y),
    xtime_linear (xtime_lt _) (xtime_lt _)]
  simp [Nat.xor_assoc, Nat.xor_comm, xorLeftComm]

theorem g13_linear {x y : Nat} (hx : x < 256) (hy : y < 256) :
    g13 (x ^^^ y) = g13 x ^^^ g13 y := by
  unfold g13
  rw [xtime_linear hx hy, xtime_linear (xtime_lt x) (xtime_lt y),
    xtime_linear (xtime_lt _) (xtime_lt _)]
  simp [Nat.xor_assoc, Nat.xor_comm, xorLeftComm]

theorem g14_linear {x y : Nat} (hx : x < 256) (hy : y < 256) :
    g14 (x ^^^ y) = g14 x ^^^ g14 y := by
  unfold g14
  rw [xtime_linear hx hy, xtime_linear (xtime_lt x) (xtime_lt y),
    xtime_linear (xtime_lt _) (xtime_lt _)]
  simp [Nat.xor_assoc, Nat.xor_comm, xorLeftComm]

theorem colA1 : ∀ a < 256, g14 (g2 a) ^^^ g11 a ^^^ g13 a ^^^ g9 (g3 a) = a := by decide

theorem colA2 : ∀ a < 256, g14 (g3 a) ^^^ g11 (g2 a) ^^^ g13 a ^^^ g9 a = 0 := by decide

theorem colA3 : ∀ a < 256, g14 a ^^^ g11 (g3 a) ^^^ g13 (g2 a) ^^^ g9 a = 0 := by decide

theorem colA4 : ∀ a < 256, g14 a ^^^ g11 a ^^^ g13 (g3 a) ^^^ g9 (g2 a) = 0 := by decide

theorem colInv0 {a0 a1 a2 a3 : Nat} (h0 : a0 < 256) (h1 : a1 < 256)
    (h2 : a2 < 256) (h3 : a3 < 256) :
    g14 (g2 a0 ^^^ g3 a1 ^^^ a2 ^^^ a3) ^^^ g11 (a0 ^^^ g2 a1 ^^^ g3 a2 ^^^ a3)
      ^^^ g13 (a0 ^^^ a1 ^^^ g2 a2 ^^^ g3 a3)
      ^^^ g9 (g3 a0 ^^^ a1 ^^^ a2 ^^^ g2 a3) = a0 := by
  have b20 : g2 a0 < 256 := xtime_lt a0
  have b21 : g2 a1 < 256 := xtime_lt a1
  have b22 : g2 a2 < 256 := xtime_lt a2
  have b23 : g2 a3 < 256 := xtime_lt a3
  have b30 : g3 a0 < 256 := xorByteLt (xtime_lt a0) h0
  have b31 : g3 a1 < 256 := xorByteLt (xtime_lt a1) h1
  have b32 : g3 a2 < 256 := xorByteLt (xtime_lt a2) h2
  have b33 : g3 a3 < 256 := xorByteLt (xtime_lt a3) h3
  rw [g14_linear (xorByteLt (xorByteLt b20 b31) h2) h3,
      g14_linear (xorByteLt b20 b31) h2, g14_linear b20 b31,
      g11_linear (xorByteLt (xorByteLt h0 b21) b32) h3,
      g11_linear (xorByteLt h0 b21) b32, g11_linear h0 b21,
      g13_linear (xorByteLt (xorByteLt h0 h1) b22) b33,
      g13_linear (xorByteLt h0 h1) b22, g13_linear h0 h1,
      g9_linear (xorByteLt (xorByteLt b30 h1) h2) b23,
      g9_linear (xorByteLt b30 h1) h2, g9_linear b30 h1]
  have e1 := colA1 a0 h0
  have e2 := colA2 a1 h1
  have e3 := colA3 a2 h2
  have e4 := colA4 a3 h3
  calc g14 (g2 a0) ^^^ g14 (g3 a1) ^^^ g14 a2 ^^^ g14 a3
        ^^^ (g11 a0 ^^^ g11 (g2 a1) ^^^ g11 (g3 a2) ^^^ g11 a3)
        ^^^ (g13 a0 ^^^ g13 a1 ^^^ g13 (g2 a2) ^^^ g13 (g3 a3))
        ^^^ (g9 (g3 a0) ^^^ g9 a1 ^^^ g9 a2 ^^^ g9 (g2 a3))
      = (g14 (g2 a0) ^^^ g11 a0 ^^^ g13 a0 ^^^ g9 (g3 a0))
        ^^^ ((g14 (g3 a1) ^^^ g11 (g2 a1) ^^^ g13 a1 ^^^ g9 a1)
        ^^^ ((g14 a2 ^^^ g11 (g3 a2) ^^^ g13 (g2 a2) ^^^ g9 a2)
        ^^^ (g14 a3 ^^^ g11 a3 ^^^ g13 (g3 a3) ^^^ g9 (g2 a3)))) := by
        simp [Nat.xor_assoc, Nat.xor_comm, xorLeftComm]
    _ = a0 := by rw [e1, e2, e3, e4]; simp


theorem colInv1 {a0 a1 a2 a3 : Nat} (h0 : a0 < 256) (h1 : a1 < 256)
    (h2 : a2 < 256) (h3 : a3 < 256) :
    g9 (g2 a0 ^^^ g3 a1 ^^^ a2 ^^^ a3) ^^^ g14 (a0 ^^^ g2 a1 ^^^ g3 a2 ^^^ a3)
      ^^^ g11 (a0 ^^^ a1 ^^^ g2 a2 ^^^ g3 a3)
      ^^^ g13 (g3 a0 ^^^ a1 ^^^ a2 ^^^ g2 a3) = a1 := by
  have b20 : g2 a0 < 256 := xtime_lt a0
  have b21 : g2 a1 < 256 := xtime_lt a1
  have b22 : g2 a2 < 256 := xtime_lt a2
  have b23 : g2 a3 < 256 := xtime_lt a3
  have b30 : g3 a0 < 256 := xorByteLt (xtime_lt a0) h0
  have b31 : g3 a1 < 256 := xorByteLt (xtime_lt a1) h1
  have b32 : g3 a2 < 256 := xorByteLt (xtime_lt a2) h2
  have b33 : g3 a3 < 256 := xorByteLt (xtime_lt a3) h3
  rw [g9_linear (xorByteLt (xorByteLt b20 b31) h2) h3,
      g9_linear (xorByteLt b20 b31) h2, g9_linear b20 b31,
      g14_linear (xorByteLt (xorByteLt h0 b21) b32) h3,
      g14_linear (xorByteLt h0 b21) b32, g14_linear h0 b21,
      g11_linear (xorByteLt (xorByteLt h0 h1) b22) b33,
      g11_linear (xorByteLt h0 h1) b22, g11_linear h0 h1,
      g13_linear (xorByteLt (xorByteLt b30 h1) h2) b23,
      g13_linear (xorByteLt b30 h1) h2, g13_linear b30 h1]
  have e1 := colA4 a0 h0
  have e2 := colA1 a1 h1
  have e3 := colA2 a2 h2
  have e4 := colA3 a3 h3
  calc g9 (g2 a0) ^^^ g9 (g3 a1) ^^^ g9 a2 ^^^ g9 a3
        ^^^ (g14 a0 ^^^ g14 (g2 a1) ^^^ g14 (g3 a2) ^^^ g14 a3)
        ^^^ (g11 a0 ^^^ g11 a1 ^^^ g11 (g2 a2) ^^^ g11 (g3 a3))
        ^^^ (g13 (g3 a0) ^^^ g13 a1 ^^^ g13 a2 ^^^ g13 (g2 a3))
      = (g14 a0 ^^^ g11 a0 ^^^ g13 (g3 a0) ^^^ g9 (g2 a0))
        ^^^ ((g14 (g2 a1) ^^^ g11 a1 ^^^ g13 a1 ^^^ g9 (g3 a1))
        ^^^ ((g14 (g3 a2) ^^^ g11 (g2 a2) ^^^ g13 a2 ^^^ g9 a2)
        ^^^ (g14 a3 ^^^ g11 (g3 a3) ^^^ g13 (g2 a3) ^^^ g9 a3))) := by
        simp [Nat.xor_assoc, Nat.xor_comm, xorLeftComm]
    _ = a1 := by rw [e1, e2, e3, e4]; simp

theorem colInv2 {a0 a1 a2 a3 : Nat} (h0 : a0 < 256) (h1 : a1 < 256)
    (h2 : a2 < 256) (h3 : a3 < 256) :
    g13 (g2 a0 ^^^ g3 a1 ^^^ a2 ^^^ a3) ^^^ g9 (a0 ^^^ g2 a1 ^^^ g3 a2 ^^^ a3)
      ^^^ g14 (a0 ^^^ a1 ^^^ g2 a2 ^^^ g3 a3)
      ^^^ g11 (g3 a0 ^^^ a1 ^^^ a2 ^^^ g2 a3) = a2 := by
  have b20 : g2 a0 < 256 := xtime_lt a0
  have b21 : g2 a1 < 256 := xtime_lt a1
  have b22 : g2 a2 < 256 := xtime_lt a2
  have b23 : g2 a3 < 256 := xtime_lt a3
  have b30 : g3 a0 < 256 := xorByteLt (xtime_lt a0) h0
  have b31 : g3 a1 < 256 := xorByteLt (xtime_lt a1) h1
  have b32 : g3 a2 < 256 := xorByteLt (xtime_lt a2) h2
  have b33 : g3 a3 < 256 := xorByteLt (xtime_lt a3) h3
  rw [g13_linear (xorByteLt (xorByteLt b20 b31) h2) h3,
      g13_linear (xorByteLt b20 b31) h2, g13_linear b20 b31,
      g9_linear (xorByteLt (xorByteLt h0 b21) b32) h3,
      g9_linear (xorByteLt h0 b21) b32, g9_linear h0 b21,
      g14_linear (xorByteLt (xorByteLt h0 h1) b22) b33,
      g14_linear (xorByteLt h0 h1) b22, g14_linear h0 h1,
      g11_linear (xorByteLt (xorByteLt b30 h1) h2) b23,
      g11_linear (xorByteLt b30 h1) h2, g11_linear b30 h1]
  have e1 := colA3 a0 h0
  have e2 := colA4 a1 h1
  have e3 := colA1 a2 h2
  have e4 := colA2 a3 h3
  calc g13 (g2 a0) ^^^ g13 (g3 a1) ^^^ g13 a2 ^^^ g13 a3
        ^^^ (g9 a0 ^^^ g9 (g2 a1) ^^^ g9 (g3 a2) ^^^ g9 a3)
        ^^^ (g14 a0 ^^^ g14 a1 ^^^ g14 (g2 a2) ^^^ g14 (g3 a3))
        ^^^ (g11 (g3 a0) ^^^ g11 a1 ^^^ g11 a2 ^^^ g11 (g2 a3))
      = (g14 a0 ^^^ g11 (g3 a0) ^^^ g13 (g2 a0) ^^^ g9 a0)
        ^^^ ((g14 a1 ^^^ g11 a1 ^^^ g13 (g3 a1) ^^^ g9 (g2 a1))
        ^^^ ((g14 (g2 a2) ^^^ g11 a2 ^^^ g13 a2 ^^^ g9 (g3 a2))
        ^^^ (g14 (g3 a3) ^^^ g11 (g2 a3) ^^^ g13 a3 ^^^ g9 a3))) := by
        simp [Nat.xor_assoc, Nat.xor_comm, xorLeftComm]
    _ = a2 := by rw [e1, e2, e3, e4]; simp

theorem colInv3 {a0 a1 a2 a3 : Nat} (h0 : a0 < 256) (h1 : a1 < 256)
    (h2 : a2 < 256) (h3 : a3 < 256) :
    g11 (g2 a0 ^^^ g3 a1 ^^^ a2 ^^^ a3) ^^^ g13 (a0 ^^^ g2 a1 ^^^ g3 a2 ^^^ a3)
      ^^^ g9 (a0 ^^^ a1 ^^^ g2 a2 ^^^ g3 a3)
      ^^^ g14 (g3 a0 ^^^ a1 ^^^ a2 ^^^ g2 a3) = a3 := by
  have b20 : g2 a0 < 256 := xtime_lt a0
  have b21 : g2 a1 < 256 := xtime_lt a1
  have b22 : g2 a2 < 256 := xtime_lt a2
  have b23 : g2 a3 < 256 := xtime_lt a3
  have b30 : g3 a0 < 256 := xorByteLt (xtime_lt a0) h0
  have b31 : g3 a1 < 256 := xorByteLt (xtime_lt a1) h1
  have b32 : g3 a2 < 256 := xorByteLt (xtime_lt a2) h2
  have b33 : g3 a3 < 256 := xorByteLt (xtime_lt a3) h3
  rw [g11_linear (xorByteLt (xorByteLt b20 b31) h2) h3,
      g11_linear (xorByteLt b20 b31) h2, g11_linear b20 b31,
      g13_linear (xorByteLt (xorByteLt h0 b21) b32) h3,
      g13_linear (xorByteLt h0 b21) b32, g13_linear h0 b21,
      g9_linear (xorByteLt (xorByteLt h0 h1) b22) b33,
      g9_linear (xorByteLt h0 h1) b22, g9_linear h0 h1,
      g14_linear (xorByteLt (xorByteLt b30 h1) h2) b23,
      g14_linear (xorByteLt b30 h1) h2, g14_linear b30 h1]
  have e1 := colA2 a0 h0
  have e2 := colA3 a1 h1
  have e3 := colA4 a2 h2
  have e4 := colA1 a3 h3
  calc g11 (g2 a0) ^^^ g11 (g3 a1) ^^^ g11 a2 ^^^ g11 a3
        ^^^ (g13 a0 ^^^ g13 (g2 a1) ^^^ g13 (g3 a2) ^^^ g13 a3)
        ^^^ (g9 a0 ^^^ g9 a1 ^^^ g9 (g2 a2) ^^^ g9 (g3 a3))
        ^^^ (g14 (g3 a0) ^^^ g14 a1 ^^^ g14 a2 ^^^ g14 (g2 a3))
      = (g14 (g3 a0) ^^^ g11 (g2 a0) ^^^ g13 a0 ^^^ g9 a0)
        ^^^ ((g14 a1 ^^^ g11 (g3 a1) ^^^ g13 (g2 a1) ^^^ g9 a1)
        ^^^ ((g14 a2 ^^^ g11 a2 ^^^ g13 (g3 a2) ^^^ g9 (g2 a2))
        ^^^ (g14 (g2 a3) ^^^ g11 a3 ^^^ g13 a3 ^^^ g9 (g3 a3)))) := by
        simp [Nat.xor_assoc, Nat.xor_comm, xorLeftComm]
    _ = a3 := by rw [e1, e2, e3, e4]; simp


theorem sboxB_lt (x : Nat) : sboxB x < 256 := Nat.mod_lt _ (by norm_num)

theorem invSbox_sbox : ∀ b < 256, invSboxB (sboxB b) = b := by decide

theorem invShift_shift (b : Blk) : invShiftRowsB (shiftRowsB b) = b := rfl

theorem invSub_sub {b : Blk} (hb : blkOk b) : invSubBytesB (subBytesB b) = b := by
  obtain ⟨h0, h1, h2, h3, h4, h5, h6, h7, h8, h9, h10, h11, h12, h13, h14, h15⟩ := hb
  cases b
  simp only [subBytesB, invSubBytesB, Blk.mk.injEq]
  exact ⟨invSbox_sbox _ h0, invSbox_sbox _ h1, invSbox_sbox _ h2, invSbox_sbox _ h3,
    invSbox_sbox _ h4, invSbox_sbox _ h5, invSbox_sbox _ h6, invSbox_sbox _ h7,
    invSbox_sbox _ h8, invSbox_sbox _ h9, invSbox_sbox _ h10, invSbox_sbox _ h11,
    invSbox_sbox _ h12, invSbox_sbox _ h13, invSbox_sbox _ h14, invSbox_sbox _ h15⟩

theorem addRk_addRk (b k : Blk) : addRk (addRk b k) k = b := by
  cases b
  cases k
  simp only [addRk, Blk.mk.injEq]
  refine ⟨?_, ?_, ?_, ?_, ?_, ?_, ?_, ?_, ?_, ?_, ?_, ?_, ?_, ?_, ?_, ?_⟩ <;>
    exact Nat.xor_cancel_right _ _

theorem invMix_mix {b : Blk} (hb : blkOk b) : invMixColumnsB (mixColumnsB b) = b := by
  obtain ⟨h0, h1, h2, h3, h4, h5, h6, h7, h8, h9, h10, h11, h12, h13, h14, h15⟩ := hb
  cases b
  simp only [mixColumnsB, invMixColumnsB, mixCol, invMixCol, Blk.mk.injEq]
  exact ⟨colInv0 h0 h1 h2 h3, colInv1 h0 h1 h2 h3, colInv2 h0 h1 h2 h3, colInv3 h0 h1 h2 h3,
    colInv0 h4 h5 h6 h7, colInv1 h4 h5 h6 h7, colInv2 h4 h5 h6 h7, colInv3 h4 h5 h6 h7,
    colInv0 h8 h9 h10 h11, colInv1 h8 h9 h10 h11, colInv2 h8 h9 h10 h11, colInv3 h8 h9 h10 h11,
    colInv0 h12 h13 h14 h15, colInv1 h12 h13 h14 h15, colInv2 h12 h13 h14 h15,
    colInv3 h12 h13 h14 h15⟩

theorem blkOk_addRk {b k : Blk} (hb : blkOk b) (hk : blkOk k) : blkOk (addRk b k) := by
  obtain ⟨h0, h1, h2, h3, h4, h5, h6, h7, h8, h9, h10, h11, h12, h13, h14, h15⟩ := hb
  obtain ⟨g0, g1, g2h, g3h, g4, g5, g6, g7, g8, g9h, g10, g11h, g12, g13h, g14h, g15⟩ := hk
  exact ⟨xorByteLt h0 g0, xorByteLt h1 g1, xorByteLt h2 g2h, xorByteLt h3 g3h,
    xorByteLt h4 g4, xorByteLt h5 g5, xorByteLt h6 g6, xorByteLt h7 g7,
    xorByteLt h8 g8, xorByteLt h9 g9h, xorByteLt h10 g10, xorByteLt h11 g11h,
    xorByteLt h12 g12, xorByteLt h13 g13h, xorByteLt h14 g14h, xorByteLt h15 g15⟩

theorem blkOk_sub (b : Blk) : blkOk (subBytesB b) :=
  ⟨sboxB_lt _, sboxB_lt _, sboxB_lt _, sboxB_lt _, sboxB_lt _, sboxB_lt _, sboxB_lt _,
   sboxB_lt _, sboxB_lt _, sboxB_lt _, sboxB_lt _, sboxB_lt _, sboxB_lt _, sboxB_lt _,
   sboxB_lt _, sboxB_lt _⟩

theorem blkOk_shift {b : Blk} (hb : blkOk b) : blkOk (shiftRowsB b) := by
  obtain ⟨h0, h1, h2, h3, h4, h5, h6, h7, h8, h9, h10, h11, h12, h13, h14, h15⟩ := hb
  exact ⟨h0, h5, h10, h15, h4, h9, h14, h3, h8, h13, h2, h7, h12, h1, h6, h11⟩

theorem mixColByteLt {a0 a1 a2 a3 : Nat} (h0 : a0 < 256) (h1 : a1 < 256)
    (h2 : a2 < 256) (h3 : a3 < 256) : g2 a0 ^^^ g3 a1 ^^^ a2 ^^^ a3 < 256 :=
  xorByteLt (xorByteLt (xorByteLt (xtime_lt a0) (xorByteLt (xtime_lt a1) h1)) h2) h3

theorem blkOk_mix {b : Blk} (hb : blkOk b) : blkOk (mixColumnsB b) := by
  obtain ⟨h0, h1, h2, h3, h4, h5, h6, h7, h8, h9, h10, h11, h12, h13, h14, h15⟩ := hb
  cases b
  simp only [mixColumnsB, mixCol]
  refine ⟨?_, ?_, ?_, ?_, ?_, ?_, ?_, ?_, ?_, ?_, ?_, ?_, ?_, ?_, ?_, ?_⟩ <;>
    first
    | exact mixColByteLt h0 h1 h2 h3
    | exact mixColByteLt h4 h5 h6 h7
    | exact mixColByteLt h8 h9 h10 h11
    | exact mixColByteLt h12 h13 h14 h15
    | exact xorByteLt (xorByteLt (xorByteLt (by assumption) (xtime_lt _))
        (xorByteLt (xtime_lt _) (by assumption))) (by assumption)
    | exact xorByteLt (xorByteLt (xorByteLt (by assumption) (by assumption))
        (xtime_lt _)) (xorByteLt (xtime_lt _) (by assumption))
    | exact xorByteLt (xorByteLt (xorByteLt (xorByteLt (xtime_lt _) (by assumption))
        (by assumption)) (by assumption)) (xtime_lt _)

theorem blkOk_encRound {st rk : Blk} (hst : blkOk st) (hrk : blkOk rk) :
    blkOk (encRound st rk) :=
  blkOk_addRk (blkOk_mix (blkOk_shift (blkOk_sub st))) hrk

theorem decRound_cancel {s k : Blk} (hs : blkOk s) (hk : blkOk k) :
    decRound k (shiftRowsB (subBytesB (encRound s k))) = shiftRowsB (subBytesB s) := by
  unfold decRound encRound
  rw [invShift_shift, invSub_sub (blkOk_addRk (blkOk_mix (blkOk_shift (blkOk_sub s))) hk),
    addRk_addRk, invMix_mix (blkOk_shift (blkOk_sub s))]

theorem midCancel (mid : List Blk) (s : Blk) (hs : blkOk s)
    (hmid : ∀ k ∈ mid, blkOk k) :
    List.foldr decRound (shiftRowsB (subBytesB (List.foldl encRound s mid))) mid
      = shiftRowsB (subBytesB s) := by
  induction mid generalizing s with
  | nil => rfl
  | cons k rest ih =>
      have hk : blkOk k := hmid k (by simp)
      have hrest : ∀ x ∈ rest, blkOk x := fun x hx => hmid x (by simp [hx])
      simp only [List.foldl_cons, List.foldr_cons]
      rw [ih (encRound s k) (blkOk_encRound hs hk) hrest, decRound_cancel hs hk]

theorem blkOk_zero : blkOk (toBlk []) := by
  refine ⟨?_, ?_, ?_, ?_, ?_, ?_, ?_, ?_, ?_, ?_, ?_, ?_, ?_, ?_, ?_, ?_⟩ <;> norm_num [toBlk]

theorem blkOk_getD {l : List Blk} (h : ∀ k ∈ l, blkOk k) (i : Nat) :
    blkOk (l.getD i (toBlk [])) := by
  induction l generalizing i with
  | nil => simpa [List.getD] using blkOk_zero
  | cons x xs ih =>
      cases i with
      | zero => exact h x (by simp)
      | succ j => exact ih (fun k hk => h k (by simp [hk])) j

theorem aesDecBlk_encBlk {rks : List Blk} {b : Blk} (hb : blkOk b)
    (hrks : ∀ k ∈ rks, blkOk k) : aesDecBlk rks (aesEncBlk rks b) = b := by
  have hmid : ∀ k ∈ (rks.drop 1).take (rks.length - 1 - 1), blkOk k := fun k hk =>
    hrks k (List.mem_of_mem_drop (List.mem_of_mem_take hk))
  have h0 : blkOk (rks.getD 0 (toBlk [])) := blkOk_getD hrks 0
  have hs : blkOk (addRk b (rks.getD 0 (toBlk []))) := blkOk_addRk hb h0
  simp only [aesEncBlk, aesDecBlk]
  rw [addRk_addRk, midCancel ((rks.drop 1).take (rks.length - 1 - 1))
    (addRk b (rks.getD 0 (toBlk []))) hs hmid, invShift_shift, invSub_sub hs, addRk_addRk]


/-! ## Byte-string and big-endian encoding lemmas -/

theorem beBytes_length (n v : Nat) : (beBytes n v).length = n := by
  induction n generalizing v with
  | zero => rfl
  | succ m ih => simp [beBytes, ih]

theorem beBytes_ok (n v : Nat) : bytesOk (beBytes n v) := by
  induction n generalizing v with
  | zero => intro b hb; simp [beBytes] at hb
  | succ m ih =>
      intro b hb
      simp only [beBytes, List.mem_append, List.mem_singleton] at hb
      rcases hb with h | h
      · exact ih _ b h
      · subst h; exact Nat.mod_lt _ (by norm_num)

theorem beVal_append_singleton (l : Bytes) (b : Nat) :
    beVal (l ++ [b]) = 256 * beVal l + b := by
  simp [beVal, List.foldl_append]

theorem beVal_beBytes (n v : Nat) : beVal (beBytes n v) = v % 256 ^ n := by
  induction n generalizing v with
  | zero => simp [beBytes, beVal, Nat.mod_one]
  | succ m ih =>
      rw [beBytes, beVal_append_singleton, ih]
      conv_rhs => rw [Nat.pow_succ, Nat.mul_comm (256 ^ m) 256, Nat.mod_mul]
      ring

theorem beVal_lt {l : Bytes} (h : bytesOk l) : beVal l < 256 ^ l.length := by
  induction l using List.reverseRecOn with
  | nil => simp [beVal]
  | append_singleton xs b ih =>
      have hxs : bytesOk xs := fun x hx => h x (by simp [hx])
      have hb : b < 256 := h b (by simp)
      rw [beVal_append_singleton]
      have := ih hxs
      simp only [List.length_append, List.length_singleton, Nat.pow_succ]
      calc 256 * beVal xs + b < 256 * beVal xs + 256 := by omega
        _ = 256 * (beVal xs + 1) := by ring
        _ ≤ 256 * 256 ^ xs.length := by
              have : beVal xs + 1 ≤ 256 ^ xs.length := this
              exact Nat.mul_le_mul_left _ this
        _ = 256 ^ xs.length * 256 := by ring

theorem beBytes_beVal {l : Bytes} (h : bytesOk l) : beBytes l.length (beVal l) = l := by
  induction l using List.reverseRecOn with
  | nil => rfl
  | append_singleton xs b ih =>
      have hxs : bytesOk xs := fun x hx => h x (by simp [hx])
      have hb : b < 256 := h b (by simp)
      rw [beVal_append_singleton]
      simp only [List.length_append, List.length_singleton]
      rw [beBytes]
      have h1 : (256 * beVal xs + b) / 256 = beVal xs := by omega
      have h2 : (256 * beVal xs + b) % 256 = b := by omega
      rw [h1, h2, ih hxs]

theorem getD_lt_of_all {l : Bytes} (h : bytesOk l) (i : Nat) : l.getD i 0 < 256 := by
  induction l generalizing i with
  | nil => simp [List.getD]
  | cons x xs ih =>
      cases i with
      | zero => exact h x (by simp)
      | succ j => exact ih (fun b hb => h b (by simp [hb])) j

theorem xorBytes_length (a b : Bytes) : (xorBytes a b).length = min a.length b.length :=
  List.length_zipWith _ _ _

theorem xorBytes_cancel : ∀ {a b : Bytes}, a.length ≤ b.length →
    xorBytes (xorBytes a b) b = a := by
  intro a
  induction a with
  | nil => intro b _; rfl
  | cons x xs ih =>
      intro b hb
      cases b with
      | nil => simp at hb
      | cons y ys =>
          simp only [xorBytes, List.zipWith_cons_cons, List.cons.injEq]
          exact ⟨Nat.xor_cancel_right y x, ih (by simpa using hb)⟩

/-! ## Chunking lemmas -/

theorem chunkFuel_mem {α : Type} {n : Nat} : ∀ {f : Nat} {l : List α} {c : List α},
    c ∈ chunkFuel n f l → ∀ b ∈ c, b ∈ l := by
  intro f
  induction f with
  | zero => intro l c hc; simp [chunkFuel] at hc
  | succ g ih =>
      intro l c hc b hb
      cases l with
      | nil => simp [chunkFuel] at hc
      | cons x xs =>
          simp only [chunkFuel, List.mem_cons] at hc
          rcases hc with h | h
          · subst h; exact List.mem_of_mem_take hb
          · exact List.mem_of_mem_drop (ih h b hb)

theorem chunkList_mem {α : Type} {n : Nat} {l : List α} {c : List α}
    (hc : c ∈ chunkList n l) : ∀ b ∈ c, b ∈ l := chunkFuel_mem hc

/-! ## Key expansion well-formedness -/

theorem zipWith_xor_ok {l1 l2 : Bytes} (h1 : bytesOk l1) (h2 : bytesOk l2) :
    bytesOk (List.zipWith Nat.xor l1 l2) := by
  induction l1 generalizing l2 with
  | nil => intro b hb; simp at hb
  | cons x xs ih =>
      cases l2 with
      | nil => intro b hb; simp at hb
      | cons y ys =>
          intro b hb
          simp only [List.zipWith_cons_cons, List.mem_cons] at hb
          rcases hb with h | h
          · subst h; exact xorByteLt (h1 x (by simp)) (h2 y (by simp))
          · exact ih (fun u hu => h1 u (by simp [hu])) (fun u hu => h2 u (by simp [hu])) b h

theorem wordsOk_getD {ws : List Bytes} (h : ∀ w ∈ ws, bytesOk w) (i : Nat) :
    bytesOk (ws.getD i []) := by
  induction ws generalizing i with
  | nil => intro b hb; simp [List.getD] at hb
  | cons x xs ih =>
      cases i with
      | zero => exact h x (by simp)
      | succ j => exact ih (fun w hw => h w (by simp [hw])) j

theorem subWord_ok (w : Bytes) : bytesOk (subWord w) := by
  intro b hb
  simp only [subWord, List.mem_map] at hb
  obtain ⟨a, _, ha⟩ := hb
  rw [← ha]
  exact sboxB_lt a

theorem rotWord_ok {w : Bytes} (h : bytesOk w) : bytesOk (rotWord w) := by
  intro b hb
  cases w with
  | nil => simp [rotWord] at hb
  | cons x xs =>
      simp only [rotWord, List.mem_append] at hb
      rcases hb with hm | hm
      · exact h b (by simp [hm])
      · have hbx : b = x := by simpa using hm
        subst hbx
        exact h b (by simp)

theorem rconGetD_lt (i : Nat) : rconTab.getD i 0 < 256 := by
  have hall : bytesOk rconTab := by decide
  exact getD_lt_of_all hall i

theorem kexStep_ok {nk : Nat} {acc : List Bytes} (h : ∀ w ∈ acc, bytesOk w) :
    ∀ w ∈ kexStep nk acc, bytesOk w := by
  intro w hw
  simp only [kexStep, List.mem_append, List.mem_singleton] at hw
  rcases hw with hm | hm
  · exact h w hm
  · subst hm
    apply zipWith_xor_ok (wordsOk_getD h _)
    split
    · apply zipWith_xor_ok (subWord_ok _)
      intro b hb
      simp only [List.mem_cons, List.mem_singleton] at hb
      rcases hb with h1 | h1 | h1 | h1
      · subst h1; exact rconGetD_lt _
      · subst h1; norm_num
      · subst h1; norm_num
      · rcases h1 with h1 | h1
        · subst h1; norm_num
        · simp at h1
    · split
      · exact subWord_ok _
      · exact wordsOk_getD h _

theorem iterN_kexStep_ok {nk : Nat} (count : Nat) {acc : List Bytes}
    (h : ∀ w ∈ acc, bytesOk w) : ∀ w ∈ iterN (kexStep nk) count acc, bytesOk w := by
  induction count generalizing acc with
  | zero => exact h
  | succ m ih => exact ih (kexStep_ok h)

theorem wordBytes_mem_chunk {ws : List Bytes} (h : ∀ w ∈ ws, bytesOk w)
    {c : List Bytes} (hc : c ∈ chunkList 4 ws) : ∀ w ∈ c, bytesOk w := by
  intro w hw
  have : ∀ x ∈ c, x ∈ ws := by
    intro x hx
    exact chunkFuel_mem (n := 4) hc x hx
  exact h w (this w hw)

theorem toBlk_ok {l : Bytes} (h : bytesOk l) : blkOk (toBlk l) :=
  ⟨getD_lt_of_all h 0, getD_lt_of_all h 1, getD_lt_of_all h 2, getD_lt_of_all h 3,
   getD_lt_of_all h 4, getD_lt_of_all h 5, getD_lt_of_all h 6, getD_lt_of_all h 7,
   getD_lt_of_all h 8, getD_lt_of_all h 9, getD_lt_of_all h 10, getD_lt_of_all h 11,
   getD_lt_of_all h 12, getD_lt_of_all h 13, getD_lt_of_all h 14, getD_lt_of_all h 15⟩

theorem flatMap_id_ok {c : List Bytes} (h : ∀ w ∈ c, bytesOk w) :
    bytesOk (c.flatMap id) := by
  intro b hb
  simp only [List.mem_flatMap, id] at hb
  obtain ⟨w, hw, hbw⟩ := hb
  exact h w hw b hbw

theorem keyExpand_ok {nk : Nat} {key : Bytes} (h : bytesOk key) :
    ∀ blk ∈ keyExpand nk key, blkOk blk := by
  intro blk hblk
  simp only [keyExpand, List.mem_map] at hblk
  obtain ⟨c, hc, hcb⟩ := hblk
  rw [← hcb]
  apply toBlk_ok
  apply flatMap_id_ok
  apply wordBytes_mem_chunk _ hc
  apply iterN_kexStep_ok
  intro w hw
  intro b hb
  exact h b (chunkFuel_mem (n := 4) hw b hb)


/-! ## AES 128-bit value round trip -/

theorem ofBlk_length (b : Blk) : (ofBlk b).length = 16 := rfl

theorem ofBlk_ok {b : Blk} (hb : blkOk b) : bytesOk (ofBlk b) := by
  obtain ⟨h0, h1, h2, h3, h4, h5, h6, h7, h8, h9, h10, h11, h12, h13, h14, h15⟩ := hb
  intro x hx
  simp only [ofBlk, List.mem_cons] at hx
  rcases hx with h | h | h | h | h | h | h | h | h | h | h | h | h | h | h | h | h
  all_goals first | (subst h; assumption) | simp at h

theorem toBlk_ofBlk (b : Blk) : toBlk (ofBlk b) = b := rfl

theorem ofBlk_toBlk {l : Bytes} (h : l.length = 16) : ofBlk (toBlk l) = l := by
  rcases l with _ | ⟨b0, l⟩; · simp at h
  rcases l with _ | ⟨b1, l⟩; · simp at h
  rcases l with _ | ⟨b2, l⟩; · simp at h
  rcases l with _ | ⟨b3, l⟩; · simp at h
  rcases l with _ | ⟨b4, l⟩; · simp at h
  rcases l with _ | ⟨b5, l⟩; · simp at h
  rcases l with _ | ⟨b6, l⟩; · simp at h
  rcases l with _ | ⟨b7, l⟩; · simp at h
  rcases l with _ | ⟨b8, l⟩; · simp at h
  rcases l with _ | ⟨b9, l⟩; · simp at h
  rcases l with _ | ⟨b10, l⟩; · simp at h
  rcases l with _ | ⟨b11, l⟩; · simp at h
  rcases l with _ | ⟨b12, l⟩; · simp at h
  rcases l with _ | ⟨b13, l⟩; · simp at h
  rcases l with _ | ⟨b14, l⟩; · simp at h
  rcases l with _ | ⟨b15, l⟩; · simp at h
  rcases l with _ | ⟨b16, l⟩
  · rfl
  · simp at h

theorem blkOk_foldl_encRound {mid : List Blk} {s : Blk} (hs : blkOk s)
    (hmid : ∀ k ∈ mid, blkOk k) : blkOk (List.foldl encRound s mid) := by
  induction mid generalizing s with
  | nil => exact hs
  | cons k rest ih =>
      exact ih (blkOk_encRound hs (hmid k (by simp)))
        (fun x hx => hmid x (by simp [hx]))

theorem blkOk_encBlk {rks : List Blk} {b : Blk} (hb : blkOk b)
    (hrks : ∀ k ∈ rks, blkOk k) : blkOk (aesEncBlk rks b) := by
  simp only [aesEncBlk]
  apply blkOk_addRk (blkOk_shift (blkOk_sub _)) (blkOk_getD hrks _)

theorem aes128DecN_encN {key : Bytes} (hkey : bytesOk key) {x : Nat}
    (hx : x < 2 ^ 128) : aes128DecN key (aes128EncN key x) = x := by
  unfold aes128DecN aes128EncN aes128Enc
  have hbytes : bytesOk (beBytes 16 x) := beBytes_ok 16 x
  have hrks : ∀ k ∈ keyExpand 4 key, blkOk k := keyExpand_ok hkey
  have hencOk : blkOk (aesEncBlk (keyExpand 4 key) (toBlk (beBytes 16 x))) :=
    blkOk_encBlk (toBlk_ok hbytes) hrks
  have e1 := beBytes_beVal (ofBlk_ok hencOk)
  rw [ofBlk_length] at e1
  rw [e1, toBlk_ofBlk, aesDecBlk_encBlk (toBlk_ok hbytes) hrks,
    ofBlk_toBlk (beBytes_length 16 x), beVal_beBytes]
  have h2 : (256 : Nat) ^ 16 = 2 ^ 128 := by norm_num
  rw [h2]
  exact Nat.mod_eq_of_lt hx


/-! ## GCM round trip -/

theorem ctrBlocks_length {encB : Bytes → Bytes} (hlen : ∀ b, (encB b).length = 16)
    (n : Nat) : ∀ ctr, (ctrBlocks encB ctr n).length = 16 * n := by
  induction n with
  | zero => intro ctr; rfl
  | succ m ih =>
      intro ctr
      simp only [ctrBlocks, List.length_append, hlen, ih]
      ring

theorem gcmKeystream_length {encB : Bytes → Bytes} (hlen : ∀ b, (encB b).length = 16)
    (j0 len : Nat) : (gcmKeystream encB j0 len).length = len := by
  simp only [gcmKeystream, List.length_take, ctrBlocks_length hlen]
  have hd := Nat.div_add_mod (len + 15) 16
  have hm := Nat.mod_lt (len + 15) (show 0 < 16 by norm_num)
  omega

theorem gcmDecrypt_gcmEncrypt {encB : Bytes → Bytes}
    (hlen : ∀ b, (encB b).length = 16) (iv aad pt : Bytes) :
    gcmDecrypt encB iv aad (gcmEncrypt encB iv aad pt) = some pt := by
  simp only [gcmEncrypt, gcmDecrypt]
  have hks : (gcmKeystream encB (beVal (iv ++ [0, 0, 0, 1])) pt.length).length
      = pt.length := gcmKeystream_length hlen _ _
  have hct : (xorBytes pt (gcmKeystream encB (beVal (iv ++ [0, 0, 0, 1]))
      pt.length)).length = pt.length := by
    rw [xorBytes_length, hks, Nat.min_self]
  have htag : (gcmTag encB (beVal (iv ++ [0, 0, 0, 1])) aad
      (xorBytes pt (gcmKeystream encB (beVal (iv ++ [0, 0, 0, 1]))
        pt.length))).length = 16 := by
    simp only [gcmTag, xorBytes_length, hlen, beBytes_length, Nat.min_self]
  set j0 := beVal (iv ++ [0, 0, 0, 1]) with hj0
  set ks := gcmKeystream encB j0 pt.length with hksdef
  set ct := xorBytes pt ks with hctdef
  set tag := gcmTag encB j0 aad ct with htagdef
  have hn : (ct ++ tag).length - 16 = ct.length := by
    simp [List.length_append, htag]
  rw [hn]
  rw [List.take_left, List.drop_left]
  rw [if_pos rfl]
  rw [hct, ← hksdef, xorBytes_cancel (by rw [hks])]

/-! ## ChaCha20-Poly1305 round trip -/

theorem qround_length (st : List Nat) (a b c d : Nat) :
    (qround st a b c d).length = st.length := by
  simp [qround, List.length_set]

theorem chachaDoubleRound_length (st : List Nat) :
    (chachaDoubleRound st).length = st.length := by
  simp [chachaDoubleRound, qround_length]

theorem iterN_chachaDoubleRound_length (n : Nat) (st : List Nat) :
    (iterN chachaDoubleRound n st).length = st.length := by
  induction n generalizing st with
  | zero => rfl
  | succ m ih => rw [iterN, ih, chachaDoubleRound_length]

theorem leBytes_length (n : Nat) : ∀ v, (leBytes n v).length = n := by
  induction n with
  | zero => intro v; rfl
  | succ m ih => intro v; simp [leBytes, ih]

theorem leWords_length_of_mul {k : Nat} : ∀ {l : Bytes}, l.length = 4 * k →
    (leWords l).length = k := by
  induction k with
  | zero =>
      intro l h
      rcases l with _ | ⟨a, l⟩
      · rfl
      · simp only [List.length_cons] at h
        omega
  | succ m ih =>
      intro l h
      rcases l with _ | ⟨a, l⟩
      · simp only [List.length_nil] at h; omega
      rcases l with _ | ⟨b, l⟩
      · simp only [List.length_cons, List.length_nil] at h; omega
      rcases l with _ | ⟨c, l⟩
      · simp only [List.length_cons, List.length_nil] at h; omega
      rcases l with _ | ⟨d, l⟩
      · simp only [List.length_cons, List.length_nil] at h; omega
      have hl : l.length = 4 * m := by
        simp only [List.length_cons] at h
        omega
      simp only [leWords, List.length_cons, ih hl]

theorem flatMap_leBytes4_length (ws : List Nat) :
    (ws.flatMap (leBytes 4)).length = 4 * ws.length := by
  induction ws with
  | nil => rfl
  | cons w rest ih =>
      simp only [List.flatMap_cons, List.length_append, ih, leBytes_length,
        List.length_cons]
      ring

theorem chachaBlock_length {key nonce : Bytes} (hkey : key.length = 32)
    (hnonce : nonce.length = 12) (ctr : Nat) :
    (chachaBlock key nonce ctr).length = 64 := by
  simp only [chachaBlock]
  have hkw : (leWords key).length = 8 := leWords_length_of_mul (by omega)
  have hnw : (leWords nonce).length = 3 := leWords_length_of_mul (by omega)
  have hst0 : ([0x61707865, 0x3320646e, 0x79622d32, 0x6b206574]
      ++ leWords key ++ [ctr % 4294967296] ++ leWords nonce).length = 16 := by
    simp [hkw, hnw]
  have hst : (iterN chachaDoubleRound 10 ([0x61707865, 0x3320646e, 0x79622d32, 0x6b206574]
      ++ leWords key ++ [ctr % 4294967296] ++ leWords nonce)).length = 16 := by
    rw [iterN_chachaDoubleRound_length, hst0]
  rw [flatMap_leBytes4_length, List.length_zipWith, hst, hst0]
  norm_num

theorem chachaKsBlocks_length {key nonce : Bytes} (hkey : key.length = 32)
    (hnonce : nonce.length = 12) (n : Nat) :
    ∀ ctr, (chachaKsBlocks key nonce ctr n).length = 64 * n := by
  induction n with
  | zero => intro ctr; rfl
  | succ m ih =>
      intro ctr
      simp only [chachaKsBlocks, List.length_append, ih,
        chachaBlock_length hkey hnonce]
      ring

theorem chachaKeystream_length {key nonce : Bytes} (hkey : key.length = 32)
    (hnonce : nonce.length = 12) (ctr len : Nat) :
    (chachaKeystream key nonce ctr len).length = len := by
  simp only [chachaKeystream, List.length_take,
    chachaKsBlocks_length hkey hnonce]
  have hd := Nat.div_add_mod (len + 63) 64
  have hm := Nat.mod_lt (len + 63) (show 0 < 64 by norm_num)
  omega

theorem chachaPolyDecrypt_encrypt {key nonce : Bytes} (hkey : key.length = 32)
    (hnonce : nonce.length = 12) (aad pt : Bytes) :
    chachaPolyDecrypt key nonce aad (chachaPolyEncrypt key nonce aad pt) = some pt := by
  simp only [chachaPolyEncrypt, chachaPolyDecrypt]
  have hks : (chachaKeystream key nonce 1 pt.length).length = pt.length :=
    chachaKeystream_length hkey hnonce 1 pt.length
  have hct : (xorBytes pt (chachaKeystream key nonce 1 pt.length)).length
      = pt.length := by rw [xorBytes_length, hks, Nat.min_self]
  set otk := (chachaBlock key nonce 0).take 32 with hotk
  set ks := chachaKeystream key nonce 1 pt.length with hksdef
  set ct := xorBytes pt ks with hctdef
  set tag := poly1305 otk (chachaPolyMacData aad ct) with htagdef
  have htag : tag.length = 16 := by
    simp only [htagdef, poly1305, leBytes_length]
  have hn : (ct ++ tag).length - 16 = ct.length := by
    simp [List.length_append, htag]
  rw [hn, List.take_left, List.drop_left, if_pos rfl, hct, ← hksdef,
    xorBytes_cancel (by rw [hks])]


/-! ## OCB round trip -/

theorem xorCancelA (a x : Nat) : a ^^^ (a ^^^ x) = x := by
  rw [← Nat.xor_assoc, Nat.xor_self, Nat.zero_xor]

theorem xorCancelB (a x : Nat) : (a ^^^ x) ^^^ a = x := by
  rw [Nat.xor_comm a x, Nat.xor_assoc, Nat.xor_self, Nat.xor_zero]

theorem xorLt128 {a b : Nat} (ha : a < 2 ^ 128) (hb : b < 2 ^ 128) :
    a ^^^ b < 2 ^ 128 := Nat.xor_lt_two_pow ha hb

theorem ocbDouble_lt (s : Nat) : ocbDouble s < 2 ^ 128 :=
  Nat.mod_lt _ (by norm_num)

theorem ocbLi_lt (ld : Nat) (i : Nat) : ocbLi ld i < 2 ^ 128 := by
  cases i with
  | zero => exact ocbDouble_lt _
  | succ j => exact ocbDouble_lt _

theorem ocbOffset0_lt (encN : Nat → Nat) (nonce : Bytes) :
    ocbOffset0 encN nonce < 2 ^ 128 := Nat.mod_lt _ (by norm_num)

theorem beVal16_lt {p : Bytes} (hlen : p.length = 16) (hok : bytesOk p) :
    beVal p < 2 ^ 128 := by
  have := beVal_lt hok
  rw [hlen] at this
  have h : (256 : Nat) ^ 16 = 2 ^ 128 := by norm_num
  rw [h] at this
  exact this

theorem aes128EncN_lt {key : Bytes} (hkey : bytesOk key) (n : Nat) :
    aes128EncN key n < 2 ^ 128 := by
  unfold aes128EncN aes128Enc
  exact beVal16_lt (ofBlk_length _)
    (ofBlk_ok (blkOk_encBlk (toBlk_ok (beBytes_ok 16 n)) (keyExpand_ok hkey)))

theorem ocbDecBlocks_encBlocks {encN decN : Nat → Nat}
    (hinv : ∀ x, x < 2 ^ 128 → decN (encN x) = x)
    (hencLt : ∀ x, encN x < 2 ^ 128) (ldollar : Nat) :
    ∀ (ps : List Bytes) (off i chk : Nat),
    (∀ p ∈ ps, p.length = 16 ∧ bytesOk p) → off < 2 ^ 128 →
    ocbDecBlocks decN ldollar (ocbEncBlocks encN ldollar ps off i chk).1 off i chk
      = (ps, (ocbEncBlocks encN ldollar ps off i chk).2) := by
  intro ps
  induction ps with
  | nil =>
      intro off i chk hps hoff
      rfl
  | cons p rest ih =>
      intro off i chk hps hoff
      obtain ⟨hplen, hpok⟩ := hps p (by simp)
      have hrest : ∀ q ∈ rest, q.length = 16 ∧ bytesOk q := fun q hq =>
        hps q (by simp [hq])
      have hoff1 : off ^^^ ocbLi ldollar (ntz i) < 2 ^ 128 :=
        xorLt128 hoff (ocbLi_lt _ _)
      have hpN : beVal p < 2 ^ 128 := beVal16_lt hplen hpok
      simp only [ocbEncBlocks, ocbDecBlocks]
      have hc : beVal (beBytes 16 ((off ^^^ ocbLi ldollar (ntz i))
          ^^^ encN (beVal p ^^^ (off ^^^ ocbLi ldollar (ntz i)))))
          = (off ^^^ ocbLi ldollar (ntz i))
            ^^^ encN (beVal p ^^^ (off ^^^ ocbLi ldollar (ntz i))) := by
        rw [beVal_beBytes]
        have hlt : (off ^^^ ocbLi ldollar (ntz i))
            ^^^ encN (beVal p ^^^ (off ^^^ ocbLi ldollar (ntz i))) < 2 ^ 128 :=
          xorLt128 hoff1 (hencLt _)
        have h : (256 : Nat) ^ 16 = 2 ^ 128 := by norm_num
        rw [h]
        exact Nat.mod_eq_of_lt hlt
      have hbb := beBytes_beVal hpok
      rw [hplen] at hbb
      rw [hc, xorCancelB, hinv _ (xorLt128 hpN hoff1),
        Nat.xor_comm (beVal p) (off ^^^ ocbLi ldollar (ntz i)), xorCancelA, hbb,
        ih (off ^^^ ocbLi ldollar (ntz i)) (i + 1) (chk ^^^ beVal p) hrest hoff1]


theorem chunkFuel_congr {α : Type} {n : Nat} (hn : 0 < n) :
    ∀ {f f' : Nat} {l : List α}, l.length ≤ f → l.length ≤ f' →
    chunkFuel n f l = chunkFuel n f' l := by
  intro f
  induction f with
  | zero =>
      intro f' l hf hf'
      have : l = [] := List.eq_nil_of_length_eq_zero (by omega)
      subst this
      cases f' <;> rfl
  | succ g ih =>
      intro f' l hf hf'
      cases l with
      | nil => cases f' <;> rfl
      | cons x xs =>
          cases f' with
          | zero => simp at hf'
          | succ g2 =>
              simp only [chunkFuel]
              congr 1
              apply ih
              · simp only [List.length_cons] at hf
                simp only [List.length_drop, List.length_cons]
                omega
              · simp only [List.length_cons] at hf'
                simp only [List.length_drop, List.length_cons]
                omega

theorem flatten16_length {cs : List Bytes} (h : ∀ c ∈ cs, c.length = 16) :
    (cs.flatMap id).length = 16 * cs.length := by
  induction cs with
  | nil => rfl
  | cons c rest ih =>
      simp only [List.flatMap_cons, List.length_append, List.length_cons, id,
        h c (by simp), ih (fun x hx => h x (by simp [hx]))]
      ring

theorem chunkFuel_exact {cs : List Bytes} {rem : Bytes} :
    ∀ {fuel : Nat}, (∀ c ∈ cs, c.length = 16) → rem.length < 16 →
    (cs.flatMap id ++ rem).length ≤ fuel →
    chunkFuel 16 fuel (cs.flatMap id ++ rem)
      = cs ++ (if rem.isEmpty then [] else [rem]) := by
  induction cs with
  | nil =>
      intro fuel _ hrem hf
      simp only [List.flatMap_nil, List.nil_append] at hf ⊢
      cases hr : rem with
      | nil => cases fuel <;> simp [chunkFuel]
      | cons x xs =>
          subst hr
          cases fuel with
          | zero => simp at hf
          | succ g =>
              simp only [chunkFuel, List.isEmpty_cons]
              rw [List.take_of_length_le (by omega), List.drop_of_length_le (by omega)]
              have : chunkFuel 16 g ([] : Bytes) = [] := by cases g <;> rfl
              simp [this]
  | cons c rest ih =>
      intro fuel hcs hrem hf
      have hclen : c.length = 16 := hcs c (by simp)
      have hcrest : ∀ x ∈ rest, x.length = 16 := fun x hx => hcs x (by simp [hx])
      rcases hc : c with _ | ⟨b0, ctl⟩
      · rw [hc] at hclen; simp at hclen
      subst hc
      simp only [List.flatMap_cons, id, List.append_assoc] at hf ⊢
      cases fuel with
      | zero =>
          simp only [List.length_append, List.length_cons] at hf
          omega
      | succ g =>
          simp only [List.cons_append, chunkFuel]
          simp only [List.append_eq]
          simp only [← List.cons_append]
          rw [List.take_left' hclen, List.drop_left' hclen,
            ih hcrest hrem ?hfuel]
          · exact (List.cons_append _ _ _).symm
          case hfuel =>
            simp only [List.length_append, List.length_cons] at hf ⊢
            omega

theorem chunkList_flat {cs : List Bytes} {rem : Bytes}
    (hcs : ∀ c ∈ cs, c.length = 16) (hrem : rem.length < 16) :
    chunkList 16 (cs.flatMap id ++ rem)
      = cs ++ (if rem.isEmpty then [] else [rem]) :=
  chunkFuel_exact hcs hrem (Nat.le_refl _)

theorem chunkTake_spec : ∀ (m : Nat) (l : Bytes), l.length / 16 = m →
    (∀ c ∈ (chunkList 16 l).take m, c.length = 16)
    ∧ ((chunkList 16 l).take m).flatMap id ++ l.drop (16 * m) = l
    ∧ ((chunkList 16 l).take m).length = m := by
  intro m
  induction m with
  | zero =>
      intro l _
      refine ⟨by simp, ?_, by simp⟩
      simp
  | succ k ih =>
      intro l hm
      have hge : 16 * (k + 1) ≤ l.length := by
        have := Nat.div_add_mod l.length 16
        have hmod := Nat.mod_lt l.length (show 0 < 16 by norm_num)
        omega
      have hlen : 16 ≤ l.length := by omega
      rcases hl : l with _ | ⟨x, xs⟩
      · subst hl; simp at hlen
      subst hl
      have hchunk : chunkList 16 (x :: xs)
          = (x :: xs).take 16 :: chunkList 16 ((x :: xs).drop 16) := by
        simp only [chunkList, List.length_cons, chunkFuel]
        congr 1
        apply chunkFuel_congr (by norm_num)
        · simp only [List.length_drop, List.length_cons]
          omega
        · exact Nat.le_refl _
      have hdroplen : ((x :: xs).drop 16).length / 16 = k := by
        have h1 : ((x :: xs).drop 16).length = (x :: xs).length - 16 :=
          List.length_drop _ _
        have h2 := Nat.div_add_mod (x :: xs).length 16
        have h3 := Nat.mod_lt (x :: xs).length (show 0 < 16 by norm_num)
        have h4 : (x :: xs).length - 16 = 16 * k + (x :: xs).length % 16 := by
          omega
        rw [h1, h4, Nat.mul_add_div (by norm_num) k ((x :: xs).length % 16),
          Nat.div_eq_of_lt h3]
        omega
      obtain ⟨ih1, ih2, ih3⟩ := ih _ hdroplen
      rw [hchunk]
      refine ⟨?_, ?_, ?_⟩
      · intro c hc
        simp only [List.take_succ_cons, List.mem_cons] at hc
        rcases hc with h | h
        · subst h
          simp only [List.length_cons] at hlen
          simp only [List.length_take, List.length_cons]
          omega
        · exact ih1 c h
      · simp only [List.take_succ_cons, List.flatMap_cons, id, List.append_assoc]
        have hdd : (x :: xs).drop (16 * (k + 1)) = ((x :: xs).drop 16).drop (16 * k) := by
          rw [List.drop_drop]
          congr 1
          ring
        rw [hdd, ih2]
        exact List.take_append_drop 16 (x :: xs)
      · simp only [List.take_succ_cons, List.length_cons, ih3]


theorem ocbEncBlocks_fst_len {encN : Nat → Nat} {ldollar : Nat} :
    ∀ (ps : List Bytes) (off i chk : Nat),
    ∀ c ∈ (ocbEncBlocks encN ldollar ps off i chk).1, c.length = 16 := by
  intro ps
  induction ps with
  | nil => intro off i chk c hc; simp [ocbEncBlocks] at hc
  | cons p rest ih =>
      intro off i chk c hc
      simp only [ocbEncBlocks, List.mem_cons] at hc
      rcases hc with h | h
      · subst h; exact beBytes_length _ _
      · exact ih _ _ _ c h

theorem ocbEncBlocks_fst_count {encN : Nat → Nat} {ldollar : Nat} :
    ∀ (ps : List Bytes) (off i chk : Nat),
    (ocbEncBlocks encN ldollar ps off i chk).1.length = ps.length := by
  intro ps
  induction ps with
  | nil => intro off i chk; rfl
  | cons p rest ih =>
      intro off i chk
      simp only [ocbEncBlocks, List.length_cons, ih]


theorem isEmpty_false_of_ne_nil {l : Bytes} (h : l ≠ []) : l.isEmpty = false := by
  cases l with
  | nil => exact absurd rfl h
  | cons x xs => rfl

theorem ocbDecryptN_eq_full (encN decN : Nat → Nat) (nonce aad : Bytes)
    (cs : List Bytes) (tagN : Nat) (hcs : ∀ c ∈ cs, c.length = 16) :
    ocbDecryptN encN decN nonce aad (cs.flatMap id ++ beBytes 16 tagN)
      = (if beBytes 16 tagN = beBytes 16 (encN
          ((ocbDecBlocks decN (ocbDouble (encN 0)) cs (ocbOffset0 encN nonce) 1 0).2.2
            ^^^ (ocbDecBlocks decN (ocbDouble (encN 0)) cs
              (ocbOffset0 encN nonce) 1 0).2.1
            ^^^ ocbDouble (encN 0)) ^^^ ocbHash encN (encN 0) (ocbDouble (encN 0)) aad)
        then some ((ocbDecBlocks decN (ocbDouble (encN 0)) cs
          (ocbOffset0 encN nonce) 1 0).1.flatMap id)
        else none) := by
  simp only [ocbDecryptN]
  have hflatlen : (cs.flatMap id).length = 16 * cs.length := flatten16_length hcs
  have hn : (cs.flatMap id ++ beBytes 16 tagN).length - 16 = (cs.flatMap id).length := by
    simp only [List.length_append, beBytes_length]
    omega
  rw [hn, List.take_left, List.drop_left]
  have hm : (cs.flatMap id).length / 16 = cs.length := by
    rw [hflatlen, Nat.mul_div_cancel_left _ (show 0 < 16 by norm_num)]
  rw [hm]
  have hchunk : chunkList 16 (cs.flatMap id) = cs := by
    have := @chunkList_flat cs [] hcs (by simp)
    simpa using this
  rw [hchunk, List.take_length]
  have hdrop : (cs.flatMap id).drop (16 * cs.length) = [] :=
    List.drop_of_length_le (by rw [hflatlen])
  rw [hdrop]
  rw [if_pos (by simp)]

theorem ocbDecryptN_eq_remCase (encN decN : Nat → Nat) (nonce aad : Bytes)
    (cs : List Bytes) (cstar : Bytes) (tagN : Nat) (hcs : ∀ c ∈ cs, c.length = 16)
    (hpos : cstar ≠ []) (hlt : cstar.length < 16) :
    ocbDecryptN encN decN nonce aad (cs.flatMap id ++ cstar ++ beBytes 16 tagN)
      = (if beBytes 16 tagN = beBytes 16 (encN
          (((ocbDecBlocks decN (ocbDouble (encN 0)) cs (ocbOffset0 encN nonce) 1 0).2.2
            ^^^ beVal (xorBytes cstar ((beBytes 16 (encN
              ((ocbDecBlocks decN (ocbDouble (encN 0)) cs
                (ocbOffset0 encN nonce) 1 0).2.1 ^^^ encN 0))).take cstar.length)
              ++ 128 :: List.replicate (15 - (xorBytes cstar ((beBytes 16 (encN
              ((ocbDecBlocks decN (ocbDouble (encN 0)) cs
                (ocbOffset0 encN nonce) 1 0).2.1 ^^^ encN 0))).take cstar.length)).length) 0))
            ^^^ ((ocbDecBlocks decN (ocbDouble (encN 0)) cs
              (ocbOffset0 encN nonce) 1 0).2.1 ^^^ encN 0)
            ^^^ ocbDouble (encN 0)) ^^^ ocbHash encN (encN 0) (ocbDouble (encN 0)) aad)
        then some ((ocbDecBlocks decN (ocbDouble (encN 0)) cs
          (ocbOffset0 encN nonce) 1 0).1.flatMap id
          ++ xorBytes cstar ((beBytes 16 (encN
            ((ocbDecBlocks decN (ocbDouble (encN 0)) cs
              (ocbOffset0 encN nonce) 1 0).2.1 ^^^ encN 0))).take cstar.length))
        else none) := by
  simp only [ocbDecryptN]
  have hflatlen : (cs.flatMap id).length = 16 * cs.length := flatten16_length hcs
  have hctlen : (cs.flatMap id ++ cstar).length = 16 * cs.length + cstar.length := by
    simp only [List.length_append, hflatlen]
  have hn : (cs.flatMap id ++ cstar ++ beBytes 16 tagN).length - 16
      = (cs.flatMap id ++ cstar).length := by
    simp only [List.length_append, beBytes_length]
    omega
  rw [hn, List.take_left, List.drop_left]
  have hm : (cs.flatMap id ++ cstar).length / 16 = cs.length := by
    rw [hctlen, Nat.mul_add_div (by norm_num), Nat.div_eq_of_lt hlt]
    omega
  rw [hm]
  have hchunk : chunkList 16 (cs.flatMap id ++ cstar) = cs ++ [cstar] := by
    rw [chunkList_flat hcs hlt, isEmpty_false_of_ne_nil hpos]
    rfl
  rw [hchunk]
  rw [List.take_left' rfl]
  have hdrop : (cs.flatMap id ++ cstar).drop (16 * cs.length) = cstar :=
    List.drop_left' hflatlen
  rw [hdrop]
  rw [if_neg (by simpa using fun h => hpos (List.eq_nil_of_length_eq_zero h))]


theorem ocbDecryptN_encryptN {encN decN : Nat → Nat}
    (hinv : ∀ x, x < 2 ^ 128 → decN (encN x) = x)
    (hencLt : ∀ x, encN x < 2 ^ 128)
    (nonce aad pt : Bytes) (hpt : bytesOk pt) :
    ocbDecryptN encN decN nonce aad (ocbEncryptN encN nonce aad pt) = some pt := by
  obtain ⟨hc16, hflat, hcount⟩ := chunkTake_spec (pt.length / 16) pt rfl
  have hremlt : (pt.drop (16 * (pt.length / 16))).length < 16 := by
    have h1 := List.length_drop (16 * (pt.length / 16)) pt
    have h2 := Nat.div_add_mod pt.length 16
    have h3 := Nat.mod_lt pt.length (show 0 < 16 by norm_num)
    omega
  have hfok : ∀ p ∈ (chunkList 16 pt).take (pt.length / 16),
      p.length = 16 ∧ bytesOk p := by
    intro p hp
    refine ⟨hc16 p hp, fun b hb => hpt b ?_⟩
    exact chunkList_mem (List.mem_of_mem_take hp) b hb
  have hdecbl := ocbDecBlocks_encBlocks hinv hencLt (ocbDouble (encN 0))
    ((chunkList 16 pt).take (pt.length / 16)) (ocbOffset0 encN nonce) 1 0 hfok
    (ocbOffset0_lt encN nonce)
  have hrlen : ∀ c ∈ (ocbEncBlocks encN (ocbDouble (encN 0))
      ((chunkList 16 pt).take (pt.length / 16)) (ocbOffset0 encN nonce) 1 0).1,
      c.length = 16 := ocbEncBlocks_fst_len _ _ _ _
  simp only [ocbEncryptN]
  by_cases hre : (pt.drop (16 * (pt.length / 16))).length = 0
  · have hremnil : pt.drop (16 * (pt.length / 16)) = [] :=
      List.eq_nil_of_length_eq_zero hre
    rw [if_pos (by simp [hre])]
    rw [ocbDecryptN_eq_full encN decN nonce aad _ _ hrlen, hdecbl]
    rw [if_pos rfl]
    have hfin : ((chunkList 16 pt).take (pt.length / 16)).flatMap id = pt := by
      rw [hremnil, List.append_nil] at hflat
      exact hflat
    exact congrArg some hfin
  · rw [if_neg (by simpa using hre)]
    have hcstarlen : (xorBytes (pt.drop (16 * (pt.length / 16)))
        ((beBytes 16 (encN ((ocbEncBlocks encN (ocbDouble (encN 0))
          ((chunkList 16 pt).take (pt.length / 16)) (ocbOffset0 encN nonce) 1 0).2.1
          ^^^ encN 0))).take (pt.drop (16 * (pt.length / 16))).length)).length
        = (pt.drop (16 * (pt.length / 16))).length := by
      rw [xorBytes_length, List.length_take, beBytes_length,
        Nat.min_eq_left (Nat.le_of_lt hremlt), Nat.min_self]
    have hpos : xorBytes (pt.drop (16 * (pt.length / 16)))
        ((beBytes 16 (encN ((ocbEncBlocks encN (ocbDouble (encN 0))
          ((chunkList 16 pt).take (pt.length / 16)) (ocbOffset0 encN nonce) 1 0).2.1
          ^^^ encN 0))).take (pt.drop (16 * (pt.length / 16))).length) ≠ [] := by
      intro h
      rw [h] at hcstarlen
      exact hre (by simpa using hcstarlen.symm)
    have hlt2 : (xorBytes (pt.drop (16 * (pt.length / 16)))
        ((beBytes 16 (encN ((ocbEncBlocks encN (ocbDouble (encN 0))
          ((chunkList 16 pt).take (pt.length / 16)) (ocbOffset0 encN nonce) 1 0).2.1
          ^^^ encN 0))).take (pt.drop (16 * (pt.length / 16))).length)).length < 16 := by
      rw [hcstarlen]
      exact hremlt
    rw [ocbDecryptN_eq_remCase encN decN nonce aad _ _ _ hrlen hpos hlt2, hdecbl]
    rw [hcstarlen]
    rw [xorBytes_cancel (by rw [List.length_take, beBytes_length]; omega)]
    rw [if_pos rfl]
    rw [hflat]


/-! ## Per-suite AEAD round trips -/

theorem aes128Enc_length (key b : Bytes) : (aes128Enc key b).length = 16 :=
  ofBlk_length _

theorem aes256Enc_length (key b : Bytes) : (aes256Enc key b).length = 16 :=
  ofBlk_length _

theorem aesOcb128_roundTrip {key : Bytes} (hkey : bytesOk key)
    (nonce aad pt : Bytes) (hpt : bytesOk pt) :
    aesOcb128Decrypt key nonce aad (aesOcb128Encrypt key nonce aad pt) = some pt :=
  ocbDecryptN_encryptN (fun x hx => aes128DecN_encN hkey hx)
    (aes128EncN_lt hkey) nonce aad pt hpt

theorem cipherRoundTrip (k : CipherKind) (key nonce aad pt : Bytes)
    (hkeylen : key.length = k.keyLen) (hkeyok : bytesOk key)
    (hnonce : nonce.length = 12) (hpt : bytesOk pt) :
    cipherDec k key nonce aad (cipherEnc k key nonce aad pt) = some pt := by
  cases k with
  | aesGcm128 =>
      exact gcmDecrypt_gcmEncrypt (fun b => aes128Enc_length key b) nonce aad pt
  | aesGcm256 =>
      exact gcmDecrypt_gcmEncrypt (fun b => aes256Enc_length key b) nonce aad pt
  | chacha20Poly1305 =>
      exact chachaPolyDecrypt_encrypt hkeylen hnonce aad pt
  | aesOcb128 =>
      exact aesOcb128_roundTrip hkeyok nonce aad pt hpt

/-! ## HPKE context layer lemmas -/

theorem maxSeq_pos (c : HpkeContext) : 0 < c.maxSeq := by
  unfold HpkeContext.maxSeq
  cases hk : c.aead.kind <;> simp [CipherKind.nonceLen] <;> norm_num

theorem computeNonce_length {c : HpkeContext} {tk : TrafficKey}
    (htk : c.aead.tk = some tk) (hiv : tk.iv.length = c.aead.kind.nonceLen) :
    c.computeNonce.length = c.aead.kind.nonceLen := by
  unfold HpkeContext.computeNonce
  rw [htk]
  rw [xorBytes_length, beBytes_length, hiv, Nat.min_self]

theorem seal_ok {c : HpkeContext} {tk : TrafficKey} (htk : c.aead.tk = some tk)
    (hseq : c.seq < c.maxSeq) (aad pt : Bytes) :
    c.seal aad pt
      = .ok (cipherEnc c.aead.kind tk.key c.computeNonce aad pt,
        { c with seq := c.seq + 1 }) := by
  unfold HpkeContext.seal Aead.encrypt
  rw [if_neg (by omega), htk]


theorem nonceLen_eq (k : CipherKind) : k.nonceLen = 12 := by
  cases k <;> rfl

theorem seal_snd {c : HpkeContext} {aad pt : Bytes} {r : Bytes × HpkeContext}
    (h : c.seal aad pt = .ok r) : r.2 = { c with seq := c.seq + 1 } := by
  unfold HpkeContext.seal at h
  split at h
  · exact absurd h (by simp)
  · cases henc : c.aead.encrypt c.computeNonce aad pt with
    | ok ct =>
        rw [henc] at h
        cases h
        rfl
    | error e =>
        rw [henc] at h
        exact absurd h (by simp)

theorem open_snd {c : HpkeContext} {aad ctt : Bytes} {r : Bytes × HpkeContext}
    (h : c.openCtx aad ctt = .ok r) : r.2 = { c with seq := c.seq + 1 } := by
  unfold HpkeContext.openCtx at h
  split at h
  · exact absurd h (by simp)
  · cases hdec : c.aead.decrypt c.computeNonce aad ctt with
    | ok pt =>
        rw [hdec] at h
        cases h
        rfl
    | error e =>
        rw [hdec] at h
        exact absurd h (by simp)

theorem runOp_preserves (c : HpkeContext) (op : HpkeOp) :
    (runOp c op).exporterSecret = c.exporterSecret
    ∧ (runOp c op).hkdfLabel = c.hkdfLabel
    ∧ (runOp c op).suiteId = c.suiteId := by
  cases op with
  | sealOp aad pt =>
      simp only [runOp]
      cases h : c.seal aad pt with
      | ok r => simp [seal_snd h]
      | error e => exact ⟨rfl, rfl, rfl⟩
  | openOp aad ctt =>
      simp only [runOp]
      cases h : c.openCtx aad ctt with
      | ok r => simp [open_snd h]
      | error e => exact ⟨rfl, rfl, rfl⟩

theorem runOps_preserves (ops : List HpkeOp) : ∀ (c : HpkeContext),
    (runOps c ops).exporterSecret = c.exporterSecret
    ∧ (runOps c ops).hkdfLabel = c.hkdfLabel
    ∧ (runOps c ops).suiteId = c.suiteId := by
  induction ops with
  | nil => intro c; exact ⟨rfl, rfl, rfl⟩
  | cons op rest ih =>
      intro c
      obtain ⟨i1, i2, i3⟩ := ih (runOp c op)
      obtain ⟨p1, p2, p3⟩ := runOp_preserves c op
      exact ⟨by rw [runOps, List.foldl_cons, ← runOps, i1, p1],
        by rw [runOps, List.foldl_cons, ← runOps, i2, p2],
        by rw [runOps, List.foldl_cons, ← runOps, i3, p3]⟩

theorem beBytes_inj {n i j : Nat} (hi : i < 2 ^ (8 * n)) (hj : j < 2 ^ (8 * n))
    (h : beBytes n i = beBytes n j) : i = j := by
  have hv := congrArg beVal h
  rw [beVal_beBytes, beVal_beBytes] at hv
  have hpow : (256 : Nat) ^ n = 2 ^ (8 * n) := by
    rw [show (256 : Nat) = 2 ^ 8 from by norm_num, ← Nat.pow_mul]
  rw [hpow, Nat.mod_eq_of_lt hi, Nat.mod_eq_of_lt hj] at hv
  exact hv

theorem xorBytes_inj : ∀ {a b c : Bytes}, a.length = b.length →
    b.length ≤ c.length → xorBytes a c = xorBytes b c → a = b := by
  intro a
  induction a with
  | nil =>
      intro b c hab _ _
      have hb : b.length = 0 := by simpa using hab.symm
      exact (List.eq_nil_of_length_eq_zero hb).symm
  | cons x xs ih =>
      intro b c hab hbc hx
      cases b with
      | nil => simp at hab
      | cons y ys =>
          cases c with
          | nil => simp at hbc
          | cons z zs =>
              simp only [xorBytes, List.zipWith_cons_cons, List.cons.injEq] at hx
              obtain ⟨h1, h2⟩ := hx
              have hxy : x = y := by
                have h1' : x ^^^ z = y ^^^ z := h1
                have h3 : (x ^^^ z) ^^^ z = (y ^^^ z) ^^^ z := by rw [h1']
                rwa [Nat.xor_assoc, Nat.xor_self, Nat.xor_zero,
                  Nat.xor_assoc, Nat.xor_self, Nat.xor_zero] at h3
              have : xs = ys := ih (by simpa using hab) (by simpa using hbc) h2
              rw [hxy, this]

theorem sealIter_state {k : CipherKind} {tk : TrafficKey} {es pfx sid : Bytes}
    {hr : Nat} (aad pt : Bytes) :
    ∀ i, i ≤ 2 ^ (8 * k.nonceLen) - 1 →
    sealIter (⟨⟨k, some tk, hr⟩, es, pfx, sid, 0⟩ : HpkeContext) aad pt i
      = ⟨⟨k, some tk, hr⟩, es, pfx, sid, i⟩ := by
  intro i
  induction i with
  | zero => intro _; rfl
  | succ n ih =>
      intro hle
      have hn : n ≤ 2 ^ (8 * k.nonceLen) - 1 := by omega
      simp only [sealIter, ih hn]
      have hseq : (⟨⟨k, some tk, hr⟩, es, pfx, sid, n⟩ : HpkeContext).seq
          < (⟨⟨k, some tk, hr⟩, es, pfx, sid, n⟩ : HpkeContext).maxSeq := by
        show n < 2 ^ (8 * k.nonceLen) - 1
        have hpow : 8 ≤ 2 ^ (8 * k.nonceLen) := by
          rw [nonceLen_eq]
          norm_num
        omega
      simp only [runOp, seal_ok rfl hseq]


theorem open_ok {c : HpkeContext} {tk : TrafficKey} (htk : c.aead.tk = some tk)
    (hseq : c.seq < c.maxSeq) (aad ctt pt : Bytes)
    (hdec : cipherDec c.aead.kind tk.key c.computeNonce aad ctt = some pt) :
    c.openCtx aad ctt = .ok (pt, { c with seq := c.seq + 1 }) := by
  unfold HpkeContext.openCtx Aead.decrypt
  rw [if_neg (by omega), htk]
  simp only [hdec]

/-! ## Claim theorems -/

/-- C1: the claim says that for every supported suite the factory's key
deriver and transcript-hash instance are built on the hash named in the
suite, in particular SHA-512 for `TLS_AEGIS_256_SHA512`.  The source
violates this: `makeKeyDeriver` uses SHA-512 but `makeHandshakeContext`
groups `TLS_AEGIS_256_SHA512` with the SHA-384 suites, disagreeing with the
suite name and with the factory's own key deriver. -/
theorem factory_aegis256_handshake_divergence :
    makeKeyDeriver CipherSuite.TLS_AEGIS_256_SHA512 = .ok ⟨HashFunction.Sha512⟩
    ∧ makeHandshakeContext CipherSuite.TLS_AEGIS_256_SHA512
        = .ok ⟨HashFunction.Sha384⟩
    ∧ suiteNamedHash CipherSuite.TLS_AEGIS_256_SHA512 = HashFunction.Sha512
    ∧ makeHandshakeContext CipherSuite.TLS_AEGIS_256_SHA512
        ≠ .ok ⟨suiteNamedHash CipherSuite.TLS_AEGIS_256_SHA512⟩ := by
  refine ⟨rfl, rfl, rfl, ?_⟩
  intro h
  cases h

/-- C2: for every supported suite, contexts sharing key, iv, exporter
secret, HKDF label and suite id, both at `seq = 0`, round trip:
`open(aad, seal(aad, m)) = m` and both contexts end at `seq = 1`. -/
theorem hpke_seal_open_roundTrip (k : CipherKind) (tk : TrafficKey)
    (es pfx sid : Bytes) (hr1 hr2 : Nat) (aad m : Bytes)
    (hkeylen : tk.key.length = k.keyLen) (hkeyok : bytesOk tk.key)
    (hivlen : tk.iv.length = k.nonceLen) (hmok : bytesOk m) :
    ∃ ct : Bytes,
      (⟨⟨k, some tk, hr1⟩, es, pfx, sid, 0⟩ : HpkeContext).seal aad m
        = .ok (ct, ⟨⟨k, some tk, hr1⟩, es, pfx, sid, 1⟩)
      ∧ (⟨⟨k, some tk, hr2⟩, es, pfx, sid, 0⟩ : HpkeContext).openCtx aad ct
        = .ok (m, ⟨⟨k, some tk, hr2⟩, es, pfx, sid, 1⟩) := by
  have hpow : (8 : Nat) ≤ 2 ^ (8 * k.nonceLen) := by
    rw [nonceLen_eq]
    norm_num
  have hseq : (⟨⟨k, some tk, hr1⟩, es, pfx, sid, 0⟩ : HpkeContext).seq
      < (⟨⟨k, some tk, hr1⟩, es, pfx, sid, 0⟩ : HpkeContext).maxSeq := by
    show 0 < 2 ^ (8 * k.nonceLen) - 1
    omega
  refine ⟨cipherEnc k tk.key
    (⟨⟨k, some tk, hr1⟩, es, pfx, sid, 0⟩ : HpkeContext).computeNonce aad m,
    ?_, ?_⟩
  · exact seal_ok rfl hseq aad m
  · have hnlen : (⟨⟨k, some tk, hr2⟩, es, pfx, sid, 0⟩ :
        HpkeContext).computeNonce.length = 12 := by
      rw [computeNonce_length rfl hivlen, nonceLen_eq]
    exact open_ok rfl (by show 0 < 2 ^ (8 * k.nonceLen) - 1; omega) aad _ m
      (cipherRoundTrip k tk.key _ aad m hkeylen hkeyok hnlen hmok)

/-- Witness for C2 at the first test vector's AES-128-GCM parameters. -/
theorem hpke_seal_open_roundTrip_witness :
    ((hexBytes params1.key).length = CipherKind.aesGcm128.keyLen
      ∧ bytesOk (hexBytes params1.key)
      ∧ (hexBytes params1.iv).length = CipherKind.aesGcm128.nonceLen
      ∧ bytesOk (hexBytes params1.plaintext))
    ∧ ∃ ct : Bytes,
      (⟨⟨.aesGcm128, some ⟨hexBytes params1.key, hexBytes params1.iv⟩, 10⟩,
        hexBytes kExportSecret, asciiBytes kPrefixLabel,
        generateHpkeSuiteId .secp256r1 .Sha256 .TLS_AES_128_GCM_SHA256, 0⟩ :
        HpkeContext).seal (hexBytes params1.aad) (hexBytes params1.plaintext)
        = .ok (ct, ⟨⟨.aesGcm128, some ⟨hexBytes params1.key, hexBytes params1.iv⟩, 10⟩,
          hexBytes kExportSecret, asciiBytes kPrefixLabel,
          generateHpkeSuiteId .secp256r1 .Sha256 .TLS_AES_128_GCM_SHA256, 1⟩)
      ∧ (⟨⟨.aesGcm128, some ⟨hexBytes params1.key, hexBytes params1.iv⟩, 10⟩,
          hexBytes kExportSecret, asciiBytes kPrefixLabel,
          generateHpkeSuiteId .secp256r1 .Sha256 .TLS_AES_128_GCM_SHA256, 0⟩ :
          HpkeContext).openCtx (hexBytes params1.aad) ct
        = .ok (hexBytes params1.plaintext,
          ⟨⟨.aesGcm128, some ⟨hexBytes params1.key, hexBytes params1.iv⟩, 10⟩,
          hexBytes kExportSecret, asciiBytes kPrefixLabel,
          generateHpkeSuiteId .secp256r1 .Sha256 .TLS_AES_128_GCM_SHA256, 1⟩) :=
  ⟨⟨by decide, by decide, by decide, by decide⟩,
    hpke_seal_open_roundTrip .aesGcm128 ⟨hexBytes params1.key, hexBytes params1.iv⟩
      (hexBytes kExportSecret) (asciiBytes kPrefixLabel)
      (generateHpkeSuiteId .secp256r1 .Sha256 .TLS_AES_128_GCM_SHA256) 10 10
      (hexBytes params1.aad) (hexBytes params1.plaintext)
      (by decide) (by decide) (by decide) (by decide)⟩

/-- C3: each listed seal vector (AES-128-GCM, AES-256-GCM, ChaCha20-Poly1305
with empty aad and plaintext) seals through the test context, at `seq = 0`,
to exactly the listed ciphertext-with-tag of length `len(pt) + 16`. -/
theorem hpke_seal_vectors :
    sealOut params1 = some (hexBytes params1.ciphertext)
    ∧ (hexBytes params1.ciphertext).length = (hexBytes params1.plaintext).length + 16
    ∧ sealOut params3 = some (hexBytes params3.ciphertext)
    ∧ (hexBytes params3.ciphertext).length = (hexBytes params3.plaintext).length + 16
    ∧ sealOut params4 = some (hexBytes params4.ciphertext)
    ∧ (hexBytes params4.ciphertext).length = (hexBytes params4.plaintext).length + 16 :=
  ⟨by decide, by decide, by decide, by decide, by decide, by decide⟩

/-- C4: the AES-128-GCM export vector: the context built by
`TestExportSecret` returns exactly the expected export value for
`exporterContext = "Context-0"`, `L = 32`, computed as the labeled expansion
of the exporter secret with label `"sec"` under the suite id for
`(x25519, SHA-256, AES-128-GCM)`. -/
theorem hpke_export_vector :
    exportOut params1 = some (hexBytes params1.expectedExportValue)
    ∧ generateHpkeSuiteId .x25519 .Sha256 .TLS_AES_128_GCM_SHA256
        = hexBytes "48504b45002000010001"
    ∧ (mkExportContext params1).exportSecret (hexBytes params1.exportContext) 32
        = .ok (labeledExpand (asciiBytes kPrefixLabel)
            (generateHpkeSuiteId .x25519 .Sha256 .TLS_AES_128_GCM_SHA256)
            (hexBytes params1.exporterSecret) (asciiBytes "sec")
            (hexBytes params1.exportContext) 32) :=
  ⟨by decide, by decide, by rfl⟩

/-- C5: every export request with `L > 255 * hashLen` (the HKDF used by the
context is SHA-256, `hashLen = 32`) fails with `ExportTooLarge` and returns
no output. -/
theorem hpke_export_too_large (c : HpkeContext) (ctx : Bytes) (L : Nat)
    (hL : L > 255 * 32) : c.exportSecret ctx L = .error .exportTooLarge := by
  unfold HpkeContext.exportSecret
  rw [if_pos hL]

/-- Witness for C5 at `L = SIZE_MAX` on the first test vector's context. -/
theorem hpke_export_too_large_witness :
    (2 ^ 64 - 1 > 255 * 32)
    ∧ (mkExportContext params1).exportSecret (hexBytes params1.exportContext)
        (2 ^ 64 - 1) = .error .exportTooLarge :=
  ⟨by norm_num, hpke_export_too_large (mkExportContext params1)
    (hexBytes params1.exportContext) (2 ^ 64 - 1) (by norm_num)⟩

/-- C6: `exportSecret` is a function of the exporter secret, suite id, HKDF
label bytes, export context and length only — two contexts agreeing on
those five (but with arbitrary sequence numbers and AEAD key material)
export equal values — and it is invariant under any prior sequence of
seal/open operations (which, in this model, are the only mutators of the
context; `exportSecret` itself takes the context immutably and leaves `seq`
unchanged). -/
theorem hpke_export_deterministic (c1 c2 : HpkeContext) (ops : List HpkeOp)
    (ctx : Bytes) (L : Nat)
    (h1 : c1.exporterSecret = c2.exporterSecret)
    (h2 : c1.suiteId = c2.suiteId)
    (h3 : c1.hkdfLabel = c2.hkdfLabel) :
    c1.exportSecret ctx L = c2.exportSecret ctx L
    ∧ (runOps c1 ops).exportSecret ctx L = c1.exportSecret ctx L := by
  constructor
  · unfold HpkeContext.exportSecret
    rw [h1, h2, h3]
  · obtain ⟨p1, p2, p3⟩ := runOps_preserves ops c1
    unfold HpkeContext.exportSecret
    rw [p1, p2, p3]

/-- Witness for C6: a keyed context at `seq = 5` and the unkeyed export
context at `seq = 0` with the same exporter secret, suite id and label
export equal values, and prior seals do not change the export. -/
theorem hpke_export_deterministic_witness :
    ((mkExportContext params1).exporterSecret
        = (⟨⟨.aesGcm256, some ⟨hexBytes params3.key, hexBytes params3.iv⟩, 7⟩,
          hexBytes params1.exporterSecret, asciiBytes kPrefixLabel,
          generateHpkeSuiteId .x25519 .Sha256 .TLS_AES_128_GCM_SHA256, 5⟩ :
          HpkeContext).exporterSecret
      ∧ (mkExportContext params1).suiteId
        = (⟨⟨.aesGcm256, some ⟨hexBytes params3.key, hexBytes params3.iv⟩, 7⟩,
          hexBytes params1.exporterSecret, asciiBytes kPrefixLabel,
          generateHpkeSuiteId .x25519 .Sha256 .TLS_AES_128_GCM_SHA256, 5⟩ :
          HpkeContext).suiteId
      ∧ (mkExportContext params1).hkdfLabel
        = (⟨⟨.aesGcm256, some ⟨hexBytes params3.key, hexBytes params3.iv⟩, 7⟩,
          hexBytes params1.exporterSecret, asciiBytes kPrefixLabel,
          generateHpkeSuiteId .x25519 .Sha256 .TLS_AES_128_GCM_SHA256, 5⟩ :
          HpkeContext).hkdfLabel)
    ∧ ((mkExportContext params1).exportSecret (hexBytes params1.exportContext) 32
        = (⟨⟨.aesGcm256, some ⟨hexBytes params3.key, hexBytes params3.iv⟩, 7⟩,
          hexBytes params1.exporterSecret, asciiBytes kPrefixLabel,
          generateHpkeSuiteId .x25519 .Sha256 .TLS_AES_128_GCM_SHA256, 5⟩ :
          HpkeContext).exportSecret (hexBytes params1.exportContext) 32
      ∧ (runOps (mkExportContext params1)
          [.sealOp [] [], .openOp [] []]).exportSecret
          (hexBytes params1.exportContext) 32
        = (mkExportContext params1).exportSecret
          (hexBytes params1.exportContext) 32) :=
  ⟨⟨rfl, rfl, rfl⟩,
    hpke_export_deterministic (mkExportContext params1)
      ⟨⟨.aesGcm256, some ⟨hexBytes params3.key, hexBytes params3.iv⟩, 7⟩,
        hexBytes params1.exporterSecret, asciiBytes kPrefixLabel,
        generateHpkeSuiteId .x25519 .Sha256 .TLS_AES_128_GCM_SHA256, 5⟩
      [.sealOp [] [], .openOp [] []]
      (hexBytes params1.exportContext) 32 rfl rfl rfl⟩

/-- C7: every enum value of `CipherSuite` and `NamedGroup` either yields a
concrete instance from the factory or fails explicitly with a
"not implemented" error, under both settings of each compile-time feature
gate; with a gate disabled, the gated cases fail with that error rather
than falling back. -/
theorem factory_exhaustive :
    (∀ (g : Bool) (c : CipherSuite), (∃ a, makeAead g c = .ok a)
      ∨ ∃ msg, makeAead g c = .error (.notImplemented msg))
    ∧ (∀ c : CipherSuite, (∃ kd, makeKeyDeriver c = .ok kd)
      ∨ ∃ msg, makeKeyDeriver c = .error (.notImplemented msg))
    ∧ (∀ c : CipherSuite, (∃ hs, makeHandshakeContext c = .ok hs)
      ∨ ∃ msg, makeHandshakeContext c = .error (.notImplemented msg))
    ∧ (∀ (o : Bool) (g : NamedGroup) (m : KeyExchangeMode),
      (∃ kx, makeKeyExchange o g m = .ok kx)
      ∨ ∃ msg, makeKeyExchange o g m = .error (.notImplemented msg))
    ∧ makeAead false .TLS_AEGIS_256_SHA512
        = .error (.notImplemented "aead: not implemented")
    ∧ makeAead false .TLS_AEGIS_128L_SHA256
        = .error (.notImplemented "aead: not implemented")
    ∧ (∀ m : KeyExchangeMode,
      makeKeyExchange false .x25519_kyber512 m
          = .error (.notImplemented "ke: not implemented")
      ∧ makeKeyExchange false .x25519_kyber512_experimental m
          = .error (.notImplemented "ke: not implemented")
      ∧ makeKeyExchange false .secp256r1_kyber512 m
          = .error (.notImplemented "ke: not implemented")
      ∧ makeKeyExchange false .kyber512 m
          = .error (.notImplemented "ke: not implemented")
      ∧ makeKeyExchange false .x25519_kyber768_draft00 m
          = .error (.notImplemented "ke: not implemented")
      ∧ makeKeyExchange false .x25519_kyber768_experimental m
          = .error (.notImplemented "ke: not implemented")
      ∧ makeKeyExchange false .secp256r1_kyber768_draft00 m
          = .error (.notImplemented "ke: not implemented")
      ∧ makeKeyExchange false .secp384r1_kyber768 m
          = .error (.notImplemented "ke: not implemented")) := by
  refine ⟨?_, ?_, ?_, ?_, rfl, rfl, ?_⟩
  · intro g c
    cases g <;> cases c <;>
      first | exact Or.inl ⟨_, rfl⟩ | exact Or.inr ⟨_, rfl⟩
  · intro c
    cases c <;> exact Or.inl ⟨_, rfl⟩
  · intro c
    cases c <;> exact Or.inl ⟨_, rfl⟩
  · intro o g m
    cases o <;> cases g <;>
      first | exact Or.inl ⟨_, rfl⟩ | exact Or.inr ⟨_, rfl⟩
  · intro m
    exact ⟨rfl, rfl, rfl, rfl, rfl, rfl, rfl, rfl⟩

/-- C8: the nonce used by the i-th seal equals the big-endian
`nonce_len`-byte encoding of `i` XORed with the installed IV; distinct
indices below the overflow bound give distinct nonces, and a peer context
sharing the traffic key derives the same nonce sequence regardless of its
other parameters. -/
theorem hpke_nonce_sequence (k : CipherKind) (tk : TrafficKey)
    (es pfx sid es2 pfx2 sid2 : Bytes) (hr hr2 : Nat)
    (aad pt aad2 pt2 : Bytes) (i j : Nat)
    (hiv : tk.iv.length = k.nonceLen)
    (hi : i < 2 ^ (8 * k.nonceLen) - 1) (hj : j < 2 ^ (8 * k.nonceLen) - 1) :
    (sealIter (⟨⟨k, some tk, hr⟩, es, pfx, sid, 0⟩ : HpkeContext) aad pt
        i).computeNonce = xorBytes (beBytes k.nonceLen i) tk.iv
    ∧ (i ≠ j →
      (sealIter (⟨⟨k, some tk, hr⟩, es, pfx, sid, 0⟩ : HpkeContext) aad pt
        i).computeNonce
      ≠ (sealIter (⟨⟨k, some tk, hr⟩, es, pfx, sid, 0⟩ : HpkeContext) aad pt
        j).computeNonce)
    ∧ (sealIter (⟨⟨k, some tk, hr2⟩, es2, pfx2, sid2, 0⟩ : HpkeContext) aad2 pt2
        i).computeNonce
      = (sealIter (⟨⟨k, some tk, hr⟩, es, pfx, sid, 0⟩ : HpkeContext) aad pt
        i).computeNonce := by
  have hnonce : ∀ (es3 pfx3 sid3 : Bytes) (hr3 : Nat) (aad3 pt3 : Bytes)
      (n : Nat), n ≤ 2 ^ (8 * k.nonceLen) - 1 →
      (sealIter (⟨⟨k, some tk, hr3⟩, es3, pfx3, sid3, 0⟩ : HpkeContext) aad3 pt3
        n).computeNonce = xorBytes (beBytes k.nonceLen n) tk.iv := by
    intro es3 pfx3 sid3 hr3 aad3 pt3 n hn
    rw [sealIter_state aad3 pt3 n hn]
    rfl
  have hfi := hnonce es pfx sid hr aad pt i (by omega)
  have hfj := hnonce es pfx sid hr aad pt j (by omega)
  refine ⟨hfi, ?_, ?_⟩
  · intro hij heq
    rw [hfi, hfj] at heq
    have hilt : i < 2 ^ (8 * k.nonceLen) := by omega
    have hjlt : j < 2 ^ (8 * k.nonceLen) := by omega
    have hlen1 : (beBytes k.nonceLen i).length = (beBytes k.nonceLen j).length := by
      rw [beBytes_length, beBytes_length]
    have hlen2 : (beBytes k.nonceLen j).length ≤ tk.iv.length := by
      rw [beBytes_length, hiv]
    exact hij (beBytes_inj hilt hjlt (xorBytes_inj hlen1 hlen2 heq))
  · rw [hnonce es2 pfx2 sid2 hr2 aad2 pt2 i (by omega), hfi]

/-- Witness for C8 at the first test vector's traffic key with indices
0 and 1. -/
theorem hpke_nonce_sequence_witness :
    ((hexBytes params1.iv).length = CipherKind.aesGcm128.nonceLen
      ∧ 0 < 2 ^ (8 * CipherKind.aesGcm128.nonceLen) - 1
      ∧ 1 < 2 ^ (8 * CipherKind.aesGcm128.nonceLen) - 1)
    ∧ ((sealIter (⟨⟨.aesGcm128, some ⟨hexBytes params1.key, hexBytes params1.iv⟩,
        10⟩, hexBytes kExportSecret, asciiBytes kPrefixLabel,
        generateHpkeSuiteId .secp256r1 .Sha256 .TLS_AES_128_GCM_SHA256, 0⟩ :
        HpkeContext) (hexBytes params1.aad) (hexBytes params1.plaintext)
        0).computeNonce
      = xorBytes (beBytes CipherKind.aesGcm128.nonceLen 0) (hexBytes params1.iv)
      ∧ ((0 : Nat) ≠ 1 →
        (sealIter (⟨⟨.aesGcm128, some ⟨hexBytes params1.key, hexBytes params1.iv⟩,
          10⟩, hexBytes kExportSecret, asciiBytes kPrefixLabel,
          generateHpkeSuiteId .secp256r1 .Sha256 .TLS_AES_128_GCM_SHA256, 0⟩ :
          HpkeContext) (hexBytes params1.aad) (hexBytes params1.plaintext)
          0).computeNonce
        ≠ (sealIter (⟨⟨.aesGcm128, some ⟨hexBytes params1.key, hexBytes params1.iv⟩,
          10⟩, hexBytes kExportSecret, asciiBytes kPrefixLabel,
          generateHpkeSuiteId .secp256r1 .Sha256 .TLS_AES_128_GCM_SHA256, 0⟩ :
          HpkeContext) (hexBytes params1.aad) (hexBytes params1.plaintext)
          1).computeNonce)
      ∧ (sealIter (⟨⟨.aesGcm128, some ⟨hexBytes params1.key, hexBytes params1.iv⟩,
          0⟩, hexBytes params1.exporterSecret, asciiBytes kPrefixLabel,
          generateHpkeSuiteId .x25519 .Sha256 .TLS_AES_128_GCM_SHA256, 0⟩ :
          HpkeContext) [] [] 0).computeNonce
        = (sealIter (⟨⟨.aesGcm128, some ⟨hexBytes params1.key, hexBytes params1.iv⟩,
          10⟩, hexBytes kExportSecret, asciiBytes kPrefixLabel,
          generateHpkeSuiteId .secp256r1 .Sha256 .TLS_AES_128_GCM_SHA256, 0⟩ :
          HpkeContext) (hexBytes params1.aad) (hexBytes params1.plaintext)
          0).computeNonce) :=
  ⟨⟨by decide, by norm_num [CipherKind.nonceLen], by norm_num [CipherKind.nonceLen]⟩,
    hpke_nonce_sequence .aesGcm128 ⟨hexBytes params1.key, hexBytes params1.iv⟩
      (hexBytes kExportSecret) (asciiBytes kPrefixLabel)
      (generateHpkeSuiteId .secp256r1 .Sha256 .TLS_AES_128_GCM_SHA256)
      (hexBytes params1.exporterSecret) (asciiBytes kPrefixLabel)
      (generateHpkeSuiteId .x25519 .Sha256 .TLS_AES_128_GCM_SHA256) 10 0
      (hexBytes params1.aad) (hexBytes params1.plaintext) [] [] 0 1
      (by decide) (by norm_num [CipherKind.nonceLen])
      (by norm_num [CipherKind.nonceLen])⟩

/-- C9: the headroom hint changes neither the AEAD's output bytes nor the
ciphertext a context's `seal` produces — it is recorded but never read by
the encryption path. -/
theorem headroom_no_effect (k : CipherKind) (tkOpt : Option TrafficKey)
    (hr n : Nat) (es pfx sid : Bytes) (seq : Nat) (nonce aad pt : Bytes) :
    ((Aead.mk k tkOpt hr).setEncryptedBufferHeadroom n).encrypt nonce aad pt
      = (Aead.mk k tkOpt hr).encrypt nonce aad pt
    ∧ ((⟨⟨k, tkOpt, n⟩, es, pfx, sid, seq⟩ : HpkeContext).seal aad pt).map
        Prod.fst
      = ((⟨⟨k, tkOpt, hr⟩, es, pfx, sid, seq⟩ : HpkeContext).seal aad pt).map
        Prod.fst := by
  constructor
  · rfl
  · simp only [HpkeContext.seal, HpkeContext.maxSeq, HpkeContext.computeNonce,
      Aead.encrypt]
    by_cases hs : seq ≥ 2 ^ (8 * k.nonceLen) - 1
    · rw [if_pos hs, if_pos hs]
    · rw [if_neg hs, if_neg hs]
      cases tkOpt with
      | none => rfl
      | some tk => rfl

/-- C10: `exportSecret` succeeds with the correct labeled expansion on a
context whose AEAD was never keyed, while `seal` and `open` on the same
context fail: the export path has no keyed-AEAD precondition. -/
theorem hpke_export_without_key (k : CipherKind) (hr : Nat)
    (es pfx sid : Bytes) (seq : Nat) (ctx aad m : Bytes) (L : Nat)
    (hL : ¬L > 255 * 32) (hseq : seq < 2 ^ (8 * k.nonceLen) - 1) :
    (⟨⟨k, none, hr⟩, es, pfx, sid, seq⟩ : HpkeContext).exportSecret ctx L
      = .ok (labeledExpand pfx sid es (asciiBytes "sec") ctx L)
    ∧ (⟨⟨k, none, hr⟩, es, pfx, sid, seq⟩ : HpkeContext).seal aad m
      = .error .aeadNotKeyed
    ∧ (⟨⟨k, none, hr⟩, es, pfx, sid, seq⟩ : HpkeContext).openCtx aad m
      = .error .aeadNotKeyed := by
  refine ⟨?_, ?_, ?_⟩
  · unfold HpkeContext.exportSecret
    rw [if_neg hL]
  · unfold HpkeContext.seal Aead.encrypt
    rw [if_neg (by show ¬seq ≥ 2 ^ (8 * k.nonceLen) - 1; omega)]
  · unfold HpkeContext.openCtx Aead.decrypt
    rw [if_neg (by show ¬seq ≥ 2 ^ (8 * k.nonceLen) - 1; omega)]

/-- Witness for C10: the unkeyed export context of the first test vector
exports at `L = 32` while seal and open fail unkeyed. -/
theorem hpke_export_without_key_witness :
    (¬(32 : Nat) > 255 * 32 ∧ 0 < 2 ^ (8 * CipherKind.aesGcm128.nonceLen) - 1)
    ∧ ((⟨⟨.aesGcm128, none, 0⟩, hexBytes params1.exporterSecret,
        asciiBytes kPrefixLabel,
        generateHpkeSuiteId .x25519 .Sha256 .TLS_AES_128_GCM_SHA256, 0⟩ :
        HpkeContext).exportSecret (hexBytes params1.exportContext) 32
      = .ok (labeledExpand (asciiBytes kPrefixLabel)
        (generateHpkeSuiteId .x25519 .Sha256 .TLS_AES_128_GCM_SHA256)
        (hexBytes params1.exporterSecret) (asciiBytes "sec")
        (hexBytes params1.exportContext) 32)
      ∧ (⟨⟨.aesGcm128, none, 0⟩, hexBytes params1.exporterSecret,
        asciiBytes kPrefixLabel,
        generateHpkeSuiteId .x25519 .Sha256 .TLS_AES_128_GCM_SHA256, 0⟩ :
        HpkeContext).seal [] [] = .error .aeadNotKeyed
      ∧ (⟨⟨.aesGcm128, none, 0⟩, hexBytes params1.exporterSecret,
        asciiBytes kPrefixLabel,
        generateHpkeSuiteId .x25519 .Sha256 .TLS_AES_128_GCM_SHA256, 0⟩ :
        HpkeContext).openCtx [] [] = .error .aeadNotKeyed) :=
  ⟨⟨by norm_num, by norm_num [CipherKind.nonceLen]⟩,
    hpke_export_without_key .aesGcm128 0 (hexBytes params1.exporterSecret)
      (asciiBytes kPrefixLabel)
      (generateHpkeSuiteId .x25519 .Sha256 .TLS_AES_128_GCM_SHA256) 0
      (hexBytes params1.exportContext) [] [] 32 (by norm_num)
      (by norm_num [CipherKind.nonceLen])⟩

end Fizz
